import Mathlib

/-!
# The JOS kernel monitor (`kern/monitor.c`)

A shallow embedding of the command interpreter of the JOS kernel monitor:
the in-place tokenizer and the dispatcher of `runcmd`, the command table,
the handlers `mon_help`, `mon_kerninfo`, `mon_backtrace`, `mon_show`,
`mon_si`, and the console loop `monitor`.

Conventions.
* A C `char` is a `Nat` (its code); a C string is read from a byte buffer up
  to the first `0`.
* The line buffer is a `List Nat`; a `char *` into it is an index.  A read
  outside the buffer is a fault, not a default value.
* 32-bit words are `Nat` with explicit `% 2 ^ 32`.
* By-reference parameters (`struct Trapframe *tf`) are passed in and handed
  back (`Option Trapframe`, `none` for `NULL`).
* Loops whose termination depends on the data carry a step budget; running
  out of it is the fault `Fault.fuel`.
-/

namespace Monitor

/-! ## Faults -/

/-- Ways in which the model of a C computation can fail to produce a value. -/
inductive Fault where
  /-- the step budget of a loop was exhausted -/
  | fuel
  /-- a `char` was read outside the line buffer -/
  | badRead
  /-- `argv` was indexed outside its `MAXARGS` slots -/
  | argvBounds
  deriving DecidableEq, Repr

/-! ## Library functions used by the monitor -/

/-- Modelled from the spec: `strchr` of `lib/string.c`, which is absent from
the sources.  `strchr s c` is non-null exactly when the character `c` occurs
in the string `s`; the monitor only calls it with `c ≠ 0`, so the treatment
of the terminator is immaterial. -/
def strchr (s : List Nat) (c : Nat) : Bool :=
  s.contains c

/-- Modelled from the spec: `strcmp` of `lib/string.c`, which is absent from
the sources: an exact, case-sensitive comparison, character by character; the
result is the difference of the first two characters that differ (the end of
a string counting as the character `0`), hence `0` for equal strings. -/
def strcmp : List Nat → List Nat → Int
  | [], [] => 0
  | [], q :: _ => 0 - (q : Int)
  | p :: _, [] => (p : Int)
  | p :: ps, q :: qs => if p = q then strcmp ps qs else (p : Int) - (q : Int)

/-- The characters of a string literal, as C `char` codes. -/
def bytes (s : String) : List Nat :=
  s.toList.map Char.toNat

/-- The text of a C string given by its `char` codes. -/
def text (l : List Nat) : String :=
  String.mk (l.map Char.ofNat)

/-- The C string that starts at index `p` of the buffer `mem`: the characters
from `p` up to, not including, the first `0`. -/
def cstr (mem : List Nat) (p : Nat) : List Nat :=
  (mem.drop p).takeWhile (fun c => c != 0)

/-! ## Formatted output -/

/-- The conversion `%x` of `cprintf` applied to a 32-bit value: lower-case
hexadecimal digits, no padding. -/
def fmt_x (n : Nat) : String :=
  String.mk (Nat.toDigits 16 (n % 2 ^ 32))

/-- The conversion `%08x` of `cprintf` applied to a 32-bit value: lower-case
hexadecimal digits, padded with `0` on the left to a width of 8. -/
def fmt_08x (n : Nat) : String :=
  String.mk (List.replicate (8 - (Nat.toDigits 16 (n % 2 ^ 32)).length) '0' ++
    Nat.toDigits 16 (n % 2 ^ 32))

/-- The conversion `%d` of `cprintf`: signed decimal. -/
def fmt_d (i : Int) : String :=
  toString i

/-- The conversion `%.*s` of `cprintf`: at most `prec` characters of `s`; a
negative precision prints the whole string. -/
def fmt_prec_s (prec : Int) (s : String) : String :=
  if prec < 0 then s else String.mk (s.toList.take prec.toNat)

/-- The value of a 32-bit word read as a signed `int`. -/
def toInt32 (n : Nat) : Int :=
  if n % 2 ^ 32 < 2 ^ 31 then ((n % 2 ^ 32 : Nat) : Int) else ((n % 2 ^ 32 : Nat) : Int) - 2 ^ 32

/-! ## Machine state and external collaborators -/

/-- Modelled from the spec: `struct PushRegs` of `inc/trap.h`, which is absent
from the sources: the general registers saved by `pusha`. -/
structure PushRegs where
  reg_edi : Nat
  reg_esi : Nat
  reg_ebp : Nat
  reg_oesp : Nat
  reg_ebx : Nat
  reg_edx : Nat
  reg_ecx : Nat
  reg_eax : Nat
  deriving DecidableEq, Repr

/-- Modelled from the spec: `struct Trapframe` of `inc/trap.h`, which is
absent from the sources: the register snapshot captured at trap entry
(instruction pointer, stack and frame pointers, flags, segment registers). -/
structure Trapframe where
  tf_regs : PushRegs
  tf_es : Nat
  tf_ds : Nat
  tf_trapno : Nat
  tf_err : Nat
  tf_eip : Nat
  tf_cs : Nat
  tf_eflags : Nat
  tf_esp : Nat
  tf_ss : Nat
  deriving DecidableEq, Repr

/-- Modelled from the spec: the constant `FL_TF` of `inc/mmu.h`, which is
absent from the sources: the trap-flag bit of the flags register (bit 8). -/
def FL_TF : Nat := 0x100

/-- Modelled from the spec: `struct Eipdebuginfo` of `kern/kdebug.h`, which is
absent from the sources: what the symbol resolver reports for an address. -/
structure Eipdebuginfo where
  eip_file : String
  eip_line : Int
  eip_fn_name : String
  eip_fn_namelen : Int
  eip_fn_addr : Nat
  eip_fn_narg : Int
  deriving DecidableEq, Repr

/-- The state the monitor works on. -/
structure Machine where
  /-- the console: the text written by each `cprintf` call, in order -/
  out : List String
  /-- memory: the 32-bit word stored at an address -/
  word : Nat → Nat
  /-- the frame-pointer register, as returned by `read_ebp()` -/
  ebp : Nat
  /-- the indeterminate initial content of the local `info` of `mon_backtrace` -/
  info : Eipdebuginfo

/-- The external collaborators of the monitor, which are not part of the
sources and are taken as parameters. -/
structure Kernel where
  /-- the symbol resolver `debuginfo_eip(addr, &info)`: from the address and
  the previous content of `info`, its return value and the new content -/
  debuginfo_eip : Nat → Eipdebuginfo → Int × Eipdebuginfo
  /-- the text printed by `print_trapframe(tf)` -/
  print_trapframe : Trapframe → List String
  /-- the linker symbol `_start` -/
  sym_start : Nat
  /-- the linker symbol `entry` -/
  sym_entry : Nat
  /-- the linker symbol `etext` -/
  sym_etext : Nat
  /-- the linker symbol `edata` -/
  sym_edata : Nat
  /-- the linker symbol `end` -/
  sym_end : Nat

/-- Modelled from the spec: the constant `KERNBASE` of `inc/memlayout.h`,
which is absent from the sources. -/
def KERNBASE : Nat := 0xF0000000

/-- One call of `cprintf` whose formatted text is `s`. -/
def cprintf (s : String) (m : Machine) : Machine :=
  { m with out := m.out ++ [s] }

/-- The dereference `*((uint32_t*) a)` of a 32-bit address. -/
def load32 (m : Machine) (a : Nat) : Nat :=
  m.word (a % 2 ^ 32) % 2 ^ 32

/-- The function `read_ebp()`. -/
def read_ebp (m : Machine) : Nat :=
  m.ebp % 2 ^ 32

/-! ## The tokenizer of `runcmd` -/

/-- The macro `WHITESPACE`, the string "\t\r\n ". -/
def WHITESPACE : List Nat := [9, 13, 10, 32]

/-- The macro `MAXARGS`. -/
def MAXARGS : Nat := 16

/-- A `char *` stored in `argv`: `null`, a pointer into the line buffer, or
the indeterminate content of a slot that was never written. -/
inductive Ptr where
  | null
  | at (p : Nat)
  | junk
  deriving DecidableEq, Repr

/-- The local array `char *argv[MAXARGS]` before any write. -/
def argvInit : List Ptr := List.replicate MAXARGS Ptr.junk

/-- The assignment `argv[i] = v`; outside the array it is a fault. -/
def setSlot (argv : List Ptr) (i : Nat) (v : Ptr) : Except Fault (List Ptr) :=
  if i < argv.length then Except.ok (argv.set i v) else Except.error Fault.argvBounds

/-- The loop `while (*buf && strchr(WHITESPACE, *buf)) *buf++ = 0;`.
Returns the buffer and the cursor when the loop is left. -/
def gobble : Nat → List Nat → Nat → Except Fault (List Nat × Nat)
  | 0, _, _ => Except.error Fault.fuel
  | fuel + 1, mem, p =>
    match mem[p]? with
    | none => Except.error Fault.badRead
    | some c =>
      if c ≠ 0 ∧ strchr WHITESPACE c = true then gobble fuel (mem.set p 0) (p + 1)
      else Except.ok (mem, p)

/-- The loop `while (*buf && !strchr(WHITESPACE, *buf)) buf++;`.
Returns the cursor when the loop is left. -/
def scanArg : Nat → List Nat → Nat → Except Fault Nat
  | 0, _, _ => Except.error Fault.fuel
  | fuel + 1, mem, p =>
    match mem[p]? with
    | none => Except.error Fault.badRead
    | some c =>
      if c ≠ 0 ∧ ¬ strchr WHITESPACE c = true then scanArg fuel mem (p + 1)
      else Except.ok p

/-- The state in which the parsing loop of `runcmd` is left. -/
structure Parsed where
  /-- the loop was left through `return 0` of the "Too many arguments" branch -/
  overflow : Bool
  /-- the line buffer, with the delimiters overwritten -/
  mem : List Nat
  /-- the array `argv` -/
  argv : List Ptr
  /-- the counter `argc` -/
  argc : Nat
  deriving DecidableEq, Repr

/-- The loop `while (1) { ... }` of `runcmd` (lines 142-157), from the state
`(mem, p, argv, argc)`; it is left by `break` (`overflow = false`) or by the
`return 0` of the overflow branch (`overflow = true`). -/
def parseLoop : Nat → List Nat → Nat → List Ptr → Nat → Except Fault Parsed
  | 0, _, _, _, _ => Except.error Fault.fuel
  | fuel + 1, mem, p, argv, argc =>
    match gobble (mem.length + 1) mem p with
    | Except.error e => Except.error e
    | Except.ok (mem1, p1) =>
      match mem1[p1]? with
      | none => Except.error Fault.badRead
      | some c =>
        if c = 0 then Except.ok ⟨false, mem1, argv, argc⟩
        else if argc = MAXARGS - 1 then Except.ok ⟨true, mem1, argv, argc⟩
        else
          match setSlot argv argc (Ptr.at p1) with
          | Except.error e => Except.error e
          | Except.ok argv1 =>
            match scanArg (mem1.length + 1) mem1 p1 with
            | Except.error e => Except.error e
            | Except.ok p2 => parseLoop fuel mem1 p2 argv1 (argc + 1)

/-- Lines 139-158 of `runcmd`: `argc = 0; argv[argc] = 0;`, the parsing loop
on the buffer `buf` (cursor at its start), and, when the loop is left by
`break`, the final `argv[argc] = 0;`. -/
def tokenize (buf : List Nat) : Except Fault Parsed :=
  match setSlot argvInit 0 Ptr.null with
  | Except.error e => Except.error e
  | Except.ok argv0 =>
    match parseLoop (buf.length + 1) buf 0 argv0 0 with
    | Except.error e => Except.error e
    | Except.ok r =>
      if r.overflow then Except.ok r
      else
        match setSlot r.argv r.argc Ptr.null with
        | Except.error e => Except.error e
        | Except.ok argv1 => Except.ok ⟨false, r.mem, argv1, r.argc⟩


/-! ## Command handlers -/

/-- The argument vector `char **argv` handed to a handler: the pointer array
together with the line buffer its pointers refer to. -/
structure Argv where
  /-- the line buffer after tokenization -/
  mem : List Nat
  /-- the array `argv` -/
  slots : List Ptr
  deriving DecidableEq, Repr

/-- What a handler, and `runcmd`, hand back: the returned `int`, the trap
frame behind the pointer `tf`, and the machine state. -/
structure Outcome where
  /-- the returned status -/
  status : Int
  /-- the trap frame behind `tf` after the call (`none` when `tf` is `NULL`) -/
  tf : Option Trapframe
  /-- the machine state after the call -/
  m : Machine

/-- The type `int (*func)(int argc, char** argv, struct Trapframe* tf)`. -/
abbrev Handler := Nat → Argv → Option Trapframe → Machine → Except Fault Outcome

/-- The type `struct Command`. -/
structure Command where
  name : String
  desc : String
  /-- return -1 to force monitor to exit -/
  func : Handler

/-- The columns `name` and `desc` of the table `commands`, which `mon_help`
reads (stated apart because the table itself refers to `mon_help`). -/
def commandText : List (String × String) :=
  [ ("help", "Display this list of commands"),
    ("kerninfo", "Display information about the kernel"),
    ("backtrace", "Display a listing of function call frames"),
    ("show", "Display colorful ASCII art"),
    ("si", "Run next instruction and trap back into monitor") ]

/-- The function `mon_help`. -/
def mon_help : Handler := fun _argc _argv tf m =>
  Except.ok ⟨0, tf,
    commandText.foldl (fun acc c => cprintf (c.1 ++ " - " ++ c.2 ++ "\n") acc) m⟩

/-- The macro call `ROUNDUP(a, 1024)` of `inc/types.h` on an `int` value `a`,
computed in 32-bit unsigned arithmetic and converted back to `int`. -/
def roundup1024 (a : Nat) : Int :=
  toInt32 (((a + 1023) % 2 ^ 32) - ((a + 1023) % 2 ^ 32) % 1024)

/-- The function `mon_kerninfo`. -/
def mon_kerninfo (k : Kernel) : Handler := fun _argc _argv tf m =>
  let phys (a : Nat) : Nat := (a % 2 ^ 32 + 2 ^ 32 - KERNBASE) % 2 ^ 32
  let m1 := cprintf "Special kernel symbols:\n" m
  let m2 := cprintf ("  _start                  " ++ fmt_08x k.sym_start ++ " (phys)\n") m1
  let m3 := cprintf ("  entry  " ++ fmt_08x k.sym_entry ++ " (virt)  " ++
    fmt_08x (phys k.sym_entry) ++ " (phys)\n") m2
  let m4 := cprintf ("  etext  " ++ fmt_08x k.sym_etext ++ " (virt)  " ++
    fmt_08x (phys k.sym_etext) ++ " (phys)\n") m3
  let m5 := cprintf ("  edata  " ++ fmt_08x k.sym_edata ++ " (virt)  " ++
    fmt_08x (phys k.sym_edata) ++ " (phys)\n") m4
  let m6 := cprintf ("  end    " ++ fmt_08x k.sym_end ++ " (virt)  " ++
    fmt_08x (phys k.sym_end) ++ " (phys)\n") m5
  let m7 := cprintf ("Kernel executable memory footprint: " ++
    fmt_d (Int.tdiv (roundup1024 ((k.sym_end % 2 ^ 32 + 2 ^ 32 - k.sym_entry % 2 ^ 32) % 2 ^ 32)) 1024)
    ++ "KB\n") m6
  Except.ok ⟨0, tf, m7⟩

/-- The inner loop `for (int i = 0; i < 5; i++)` of `mon_backtrace`: reads
`args[i]` at `ebp + 8 + i * 4` and prints it with " %08x ". -/
def printArgs (ebp : Nat) (m : Machine) : Machine :=
  (List.range 5).foldl
    (fun acc i => cprintf (" " ++ fmt_08x (load32 m ((ebp + 8 + i * 4) % 2 ^ 32)) ++ " ") acc) m

/-- The text of `cprintf("%s:%d: %.*s+%d\n", ...)` in `mon_backtrace`. -/
def infoLine (eip : Nat) (info : Eipdebuginfo) : String :=
  info.eip_file ++ ":" ++ fmt_d info.eip_line ++ ": " ++
    fmt_prec_s info.eip_fn_namelen info.eip_fn_name ++ "+" ++
    fmt_d (toInt32 ((eip + 2 ^ 32 - info.eip_fn_addr % 2 ^ 32) % 2 ^ 32)) ++ "\n"

/-- The loop `while (ebp != 0) { ... }` of `mon_backtrace`, from the state
`(ebp, info)`; one unit of the step budget per iteration. -/
def backtraceLoop (k : Kernel) : Nat → Nat → Eipdebuginfo → Machine → Except Fault Machine
  | fuel, ebp, info, m =>
    if ebp = 0 then Except.ok m
    else
      match fuel with
      | 0 => Except.error Fault.fuel
      | fuel + 1 =>
        let eip := load32 m ((ebp + 4) % 2 ^ 32)
        let m1 := cprintf ("ebp " ++ fmt_x ebp ++ " eip " ++ fmt_x eip ++ " args") m
        let m2 := printArgs ebp m1
        let m3 := cprintf "\n" m2
        let r := k.debuginfo_eip eip info
        let m4 := cprintf (infoLine eip r.2) m3
        backtraceLoop k fuel (load32 m ebp) r.2 m4

/-- The function `mon_backtrace`; `fuel` bounds the iterations of its loop. -/
def mon_backtrace (k : Kernel) (fuel : Nat) : Handler := fun _argc _argv tf m =>
  match backtraceLoop k fuel (read_ebp m) m.info (cprintf "Stack backtrace:\n" m) with
  | Except.error e => Except.error e
  | Except.ok m1 => Except.ok ⟨0, tf, m1⟩

/-- The lines of ASCII art printed by `mon_show`, one per `cprintf` call. -/
def showArt : List String :=
  [ "\x1b[32m░░░░░░░░░░▄▄▄▄▄▄▄▄▄▄▄▄▄▄▄▄▄▄▄▄░░░░░░░░░\n",
    "\x1b[33m░░░░░░░░▄▀░░░░░░░░░░░░▄░░░░░░░▀▄░░░░░░░\n",
    "\x1b[34m░░░░░░░░█░░▄░░░░▄░░░░░░░░░░░░░░█░░░░░░░\n",
    "\x1b[35m░░░░░░░░█░░░░░░░░░░░░▄█▄▄░░▄░░░█░▄▄▄░░░\n",
    "\x1b[36m░▄▄▄▄▄░░█░░░░░░▀░░░░▀█░░▀▄░░░░░█▀▀░██░░\n",
    "\x1b[32m░██▄▀██▄█░░░▄░░░░░░░██░░░░▀▀▀▀▀░░░░██░░\n",
    "\x1b[33m░░▀██▄▀██░░░░░░░░▀░██▀░░░░░░░░░░░░░▀██░\n",
    "\x1b[34m░░░░▀████░▀░░░░▄░░░██░░░▄█░░░░▄░▄█░░██░\n",
    "\x1b[35m░░░░░░░▀█░░░░▄░░░░░██░░░░▄░░░▄░░▄░░░██░\n",
    "\x1b[36m░░░░░░░▄█▄░░░░░░░░░░░▀▄░░▀▀▀▀▀▀▀▀░░▄▀░░\n",
    "\x1b[31m░░░░░░█▀▀█████████▀▀▀▀████████████▀░░░░\n",
    "\x1b[32m░░░░░░████▀░░███▀░░░░░░▀███░░▀██▀░░░░░░\n",
    "\x1b[33m░░░░░░░░░░░░░░░░░░░░░░░░░░░░░░░░░░░░░░░\x1b[0m\n" ]

/-- The function `mon_show`. -/
def mon_show : Handler := fun _argc _argv tf m =>
  Except.ok ⟨0, tf, showArt.foldl (fun acc s => cprintf s acc) m⟩

/-- The function `mon_si`.  The flags word and `FL_TF` are both 32-bit values,
so `|=` cannot overflow and no reduction modulo `2 ^ 32` is applied. -/
def mon_si : Handler := fun _argc _argv tf m =>
  match tf with
  | none => Except.ok ⟨0, none, cprintf "No trap frame available.\n" m⟩
  | some t => Except.ok ⟨-1, some { t with tf_eflags := t.tf_eflags ||| FL_TF }, m⟩

/-- The table `commands`, for the external collaborators `k` and the step
budget `fuel` of `mon_backtrace`. -/
def commands (k : Kernel) (fuel : Nat) : List Command :=
  [ ⟨"help", "Display this list of commands", mon_help⟩,
    ⟨"kerninfo", "Display information about the kernel", mon_kerninfo k⟩,
    ⟨"backtrace", "Display a listing of function call frames", mon_backtrace k fuel⟩,
    ⟨"show", "Display colorful ASCII art", mon_show⟩,
    ⟨"si", "Run next instruction and trap back into monitor", mon_si⟩ ]

/-! ## The command interpreter -/

/-- The read of the C string `argv[i]`: a fault when the slot holds no pointer
into the buffer or the buffer has no `0` from there on. -/
def argStr (a : Argv) (i : Nat) : Except Fault (List Nat) :=
  match a.slots[i]? with
  | some (Ptr.at p) =>
    if (a.mem.drop p).contains 0 then Except.ok (cstr a.mem p) else Except.error Fault.badRead
  | _ => Except.error Fault.badRead

/-- The loop `for (i = 0; i < ARRAY_SIZE(commands); i++)` of `runcmd` over
the remaining entries `cmds` of the table, and the statements after it. -/
def dispatch : List Command → Nat → Argv → Option Trapframe → Machine → Except Fault Outcome
  | [], _, argv, tf, m =>
    match argStr argv 0 with
    | Except.error e => Except.error e
    | Except.ok s => Except.ok ⟨0, tf, cprintf ("Unknown command \x27" ++ text s ++ "\x27\n") m⟩
  | c :: cs, argc, argv, tf, m =>
    match argStr argv 0 with
    | Except.error e => Except.error e
    | Except.ok s =>
      if strcmp s (bytes c.name) = 0 then c.func argc argv tf m
      else dispatch cs argc argv tf m

/-- The function `runcmd`; the static table `commands` it reads is the
parameter `cmds`.  The "Too many arguments" branch of the parsing loop
(`overflow = true`) prints its message and returns 0 here. -/
def runcmd (cmds : List Command) (buf : List Nat) (tf : Option Trapframe) (m : Machine) :
    Except Fault Outcome :=
  match tokenize buf with
  | Except.error e => Except.error e
  | Except.ok r =>
    if r.overflow then
      Except.ok ⟨0, tf, cprintf ("Too many arguments (max " ++ fmt_d MAXARGS ++ ")\n") m⟩
    else if r.argc = 0 then Except.ok ⟨0, tf, m⟩
    else dispatch cmds r.argc ⟨r.mem, r.argv⟩ tf m

/-! ## The console loop -/

/-- How a run of the console loop over a finite supply of input ends. -/
structure Session where
  /-- the loop was left by `break`; `false` when it is waiting in `readline`
  with the supplied input used up -/
  exited : Bool
  /-- the number of calls of `readline` made -/
  prompts : Nat
  /-- the trap frame behind `tf` -/
  tf : Option Trapframe
  /-- the machine state -/
  m : Machine

/-- The loop `while (1) { ... }` of `monitor`.  Each element of `input` is the
result of one call of `readline("K> ")`: a line buffer, or `none` for `NULL`;
the call prints the prompt (the echo of the typed characters is not
modelled). -/
def monitorLoop (cmds : List Command) :
    List (Option (List Nat)) → Nat → Option Trapframe → Machine → Except Fault Session
  | [], n, tf, m => Except.ok ⟨false, n, tf, m⟩
  | none :: rest, n, tf, m => monitorLoop cmds rest (n + 1) tf (cprintf "K> " m)
  | some buf :: rest, n, tf, m =>
    match runcmd cmds buf tf (cprintf "K> " m) with
    | Except.error e => Except.error e
    | Except.ok o =>
      if o.status < 0 then Except.ok ⟨true, n + 1, o.tf, o.m⟩
      else monitorLoop cmds rest (n + 1) o.tf o.m

/-- The function `monitor`, run on the supply `input` of `readline` results. -/
def monitor (k : Kernel) (cmds : List Command) (input : List (Option (List Nat)))
    (tf : Option Trapframe) (m : Machine) : Except Fault Session :=
  let m1 := cprintf "Welcome to the JOS kernel monitor!\n" m
  let m2 := cprintf "Type \x27help\x27 for a list of commands.\n" m1
  let m3 := match tf with
    | none => m2
    | some t => { m2 with out := m2.out ++ k.print_trapframe t }
  monitorLoop cmds input 0 tf m3

/-! ## Vocabulary of the specification -/

/-- The whitespace characters named by the specification: tab, carriage
return, newline and space. -/
def isSpace (c : Nat) : Bool :=
  c == 9 || c == 13 || c == 10 || c == 32

/-- The maximal runs of non-whitespace characters of a line, in order: the
line is cut at every whitespace character and the empty pieces are dropped. -/
def wordsOf (line : List Nat) : List (List Nat) :=
  (line.splitOnP isSpace).filter (fun w => !w.isEmpty)

/-- The first descriptor of a table whose name is exactly the string `s`. -/
def lookup (cmds : List Command) (s : List Nat) : Option Command :=
  cmds.find? (fun c => bytes c.name == s)

/-- A frame-pointer chain in memory: starting from the frame pointer `e`, the
frames `fs` in order, each a non-null 32-bit address whose word at offset 0
holds the address of the next one, the last holding 0. -/
def IsChain (m : Machine) : Nat → List Nat → Prop
  | e, [] => e = 0
  | e, f :: fs => e = f ∧ f ≠ 0 ∧ f < 2 ^ 32 ∧ IsChain m (load32 m f) fs

/-- The `cprintf` calls that make up the call-frame line of the frame at
`ebp`: the frame pointer, the return address stored at `ebp + 4`, the five
argument words stored from `ebp + 8` on, and the end of line. -/
def frameLine (m : Machine) (ebp : Nat) : List String :=
  ["ebp " ++ fmt_x ebp ++ " eip " ++ fmt_x (load32 m ((ebp + 4) % 2 ^ 32)) ++ " args"] ++
    (List.range 5).map (fun i => " " ++ fmt_08x (load32 m ((ebp + 8 + i * 4) % 2 ^ 32)) ++ " ") ++
    ["\n"]

/-- The contents of `info` with which the resolver line of each frame of a
chain is formatted: for the frames `fs` in order, what the resolver `k`
leaves in `info` when called with the frame's return address (the word at the
frame's address + 4) and the content left by the call before, starting from
`info`.  The value the resolver returns plays no part. -/
def resolvedInfos (k : Kernel) (m : Machine) : List Nat → Eipdebuginfo → List Eipdebuginfo
  | [], _ => []
  | f :: fs, info =>
    (k.debuginfo_eip (load32 m ((f + 4) % 2 ^ 32)) info).2 ::
      resolvedInfos k m fs (k.debuginfo_eip (load32 m ((f + 4) % 2 ^ 32)) info).2

/-! ## Sample values -/

/-- A sample resolver and kernel layout. -/
def sampleKernel : Kernel where
  debuginfo_eip := fun a _ => (0, ⟨"kern/init.c", 24, "i386_init", 9, a - 3, 0⟩)
  print_trapframe := fun _ => ["TRAP frame\n"]
  sym_start := 0x0010000c
  sym_entry := 0xf010000c
  sym_etext := 0xf0101a75
  sym_edata := 0xf0112300
  sym_end := 0xf0112960

/-- A sample memory: a chain of two frames, at `0x100` and `0x200`. -/
def sampleWord (a : Nat) : Nat :=
  if a = 0x100 then 0x200 else if a = 0x104 then 0xf0100abc
  else if a = 0x200 then 0 else if a = 0x204 then 0xf0100def else 7

/-- A sample machine state with an empty console. -/
def sampleMachine : Machine where
  out := []
  word := sampleWord
  ebp := 0x100
  info := ⟨"", 0, "", 0, 0, 0⟩

/-- A sample trap frame. -/
def sampleFrame : Trapframe :=
  ⟨⟨1, 2, 3, 4, 5, 6, 7, 8⟩, 0x23, 0x23, 3, 0, 0x00800020, 0x1b, 0x202, 0xeebfdfd0, 0x23⟩

/-- A sample machine state whose frame at `0x100` is its own caller. -/
def cyclicMachine : Machine where
  out := []
  word := fun a => if a = 0x100 then 0x100 else 0
  ebp := 0x100
  info := ⟨"", 0, "", 0, 0, 0⟩

/-- A sample table with one command, whose handler returns the status -2. -/
def sampleTable : List Command :=
  [⟨"halt", "Return the status -2", fun _ _ tf m => Except.ok ⟨-2, tf, m⟩⟩]

/-- A sample memory: a chain of three frames, at `0x1000`, `0x2000` and
`0x3000`, each with the argument words 1, 2, 3, 4, 5 above its return
address. -/
def deepWord (a : Nat) : Nat :=
  if a = 0x1000 then 0x2000 else if a = 0x2000 then 0x3000 else if a = 0x3000 then 0
  else if a % 0x1000 = 4 then 0xf0100000 + a / 0x1000
  else if a % 0x1000 = 8 then 1 else if a % 0x1000 = 12 then 2
  else if a % 0x1000 = 16 then 3 else if a % 0x1000 = 20 then 4
  else if a % 0x1000 = 24 then 5 else 0

/-- A sample machine state over the chain of three frames. -/
def deepMachine : Machine where
  out := []
  word := deepWord
  ebp := 0x1000
  info := ⟨"", 0, "", 0, 0, 0⟩

/-- A sample resolver that reports failure (-1) for every address and leaves
in `info` what `sampleKernel` leaves there. -/
def failingKernel : Kernel where
  debuginfo_eip := fun a _ => (-1, ⟨"kern/init.c", 24, "i386_init", 9, a - 3, 0⟩)
  print_trapframe := fun _ => ["TRAP frame\n"]
  sym_start := 0x0010000c
  sym_entry := 0xf010000c
  sym_etext := 0xf0101a75
  sym_edata := 0xf0112300
  sym_end := 0xf0112960

/-- A sample resolver that knows the address `0xf0100abc` only: for every
other address it reports failure (-1) and leaves `info` as it was. -/
def staleKernel : Kernel where
  debuginfo_eip := fun a i =>
    if a = 0xf0100abc then (0, ⟨"kern/init.c", 24, "i386_init", 9, 0xf0100ab9, 0⟩) else (-1, i)
  print_trapframe := fun _ => ["TRAP frame\n"]
  sym_start := 0x0010000c
  sym_entry := 0xf010000c
  sym_etext := 0xf0101a75
  sym_edata := 0xf0112300
  sym_end := 0xf0112960

/-! # Lemmas -/

/-! ## The inner loops of the tokenizer -/

theorem strchr_ws (c : Nat) : strchr WHITESPACE c = isSpace c := by
  simp only [strchr, WHITESPACE, isSpace, List.contains_cons, List.contains_nil, Bool.or_false,
    Bool.or_assoc]

theorem isSpace_ne_zero {c : Nat} (h : isSpace c = true) : c ≠ 0 := by
  rintro rfl; simp [isSpace] at h

theorem getElem?_mid (pre post : List Nat) (x : Nat) : (pre ++ x :: post)[pre.length]? = some x := by
  rw [List.getElem?_append_right (Nat.le_refl _)]; simp

theorem set_mid (pre post : List Nat) (x y : Nat) :
    (pre ++ x :: post).set pre.length y = pre ++ y :: post := by
  simp

theorem gobble_spec (post : List Nat) (c : Nat) (hc : isSpace c = false) :
    ∀ (ws pre : List Nat) (fuel : Nat), (∀ x ∈ ws, isSpace x = true) → ws.length < fuel →
      gobble fuel (pre ++ (ws ++ c :: post)) pre.length
        = Except.ok (pre ++ (List.replicate ws.length 0 ++ c :: post), pre.length + ws.length) := by
  intro ws
  induction ws with
  | nil =>
    intro pre fuel _ hf
    obtain ⟨f, rfl⟩ : ∃ f, fuel = f + 1 := ⟨fuel - 1, by simp at hf; omega⟩
    simp only [gobble, List.nil_append, getElem?_mid, strchr_ws, hc]
    simp
  | cons w ws ih =>
    intro pre fuel hws hf
    obtain ⟨f, rfl⟩ : ∃ f, fuel = f + 1 := ⟨fuel - 1, by simp at hf; omega⟩
    have hw : isSpace w = true := hws w (by simp)
    have h0 : w ≠ 0 := isSpace_ne_zero hw
    have := ih (pre ++ [0]) f (fun x hx => hws x (by simp [hx])) (by simp at hf; omega)
    simp only [gobble, List.cons_append, getElem?_mid, strchr_ws, hw, set_mid]
    simp only [List.append_assoc, List.singleton_append, List.length_append, List.length_singleton] at this
    simp [h0, this, List.replicate_succ]
    omega

theorem scanArg_spec (post : List Nat) (c : Nat) (hc : c = 0 ∨ isSpace c = true) :
    ∀ (tok pre : List Nat) (fuel : Nat), (∀ x ∈ tok, x ≠ 0 ∧ isSpace x = false) →
      tok.length < fuel →
      scanArg fuel (pre ++ (tok ++ c :: post)) pre.length = Except.ok (pre.length + tok.length) := by
  intro tok
  induction tok with
  | nil =>
    intro pre fuel _ hf
    obtain ⟨f, rfl⟩ : ∃ f, fuel = f + 1 := ⟨fuel - 1, by simp at hf; omega⟩
    simp only [scanArg, List.nil_append, getElem?_mid, strchr_ws]
    rcases hc with rfl | hc <;> simp [*]
  | cons w tok ih =>
    intro pre fuel hws hf
    obtain ⟨f, rfl⟩ : ∃ f, fuel = f + 1 := ⟨fuel - 1, by simp at hf; omega⟩
    have hw := hws w (by simp)
    have := ih (pre ++ [w]) f (fun x hx => hws x (by simp [hx])) (by simp at hf; omega)
    simp only [scanArg, List.cons_append, getElem?_mid, strchr_ws]
    simp only [List.append_assoc, List.singleton_append, List.length_append, List.length_singleton] at this
    simp [hw, this]
    omega

/-! ## Words of a line -/

theorem wordsOf_nil : wordsOf [] = [] := by
  simp [wordsOf, List.splitOnP_nil]

theorem wordsOf_ws (r : List Nat) :
    ∀ ws : List Nat, (∀ x ∈ ws, isSpace x = true) → wordsOf (ws ++ r) = wordsOf r := by
  intro ws
  induction ws with
  | nil => intro _; rfl
  | cons w ws ih =>
    intro h
    have hw : isSpace w = true := h w (by simp)
    have := ih (fun x hx => h x (by simp [hx]))
    simp only [wordsOf] at this ⊢
    simp [List.splitOnP_cons, hw, this]

theorem wordsOf_tok (tok r2 : List Nat) (hne : tok ≠ [])
    (htok : ∀ x ∈ tok, isSpace x = false)
    (hr2 : r2 = [] ∨ ∃ c rs, r2 = c :: rs ∧ isSpace c = true) :
    wordsOf (tok ++ r2) = tok :: wordsOf r2 := by
  have hne' : tok.isEmpty = false := by cases tok <;> simp_all
  rcases hr2 with rfl | ⟨c, rs, rfl, hc⟩
  · have : List.splitOnP isSpace tok = [tok] :=
      List.splitOnP_eq_single _ _ (fun x hx => by simp [htok x hx])
    simp [wordsOf, this, hne', List.splitOnP_nil]
  · have : List.splitOnP isSpace (tok ++ c :: rs) = tok :: List.splitOnP isSpace rs :=
      List.splitOnP_first _ _ (fun x hx => by simp [htok x hx]) c hc rs
    simp [wordsOf, this, hne', List.splitOnP_cons, hc]

theorem line_cases : ∀ rest : List Nat, (∀ c ∈ rest, c ≠ 0) →
    ∃ ws : List Nat, (∀ x ∈ ws, isSpace x = true) ∧
      (rest = ws ∨ ∃ t tok r2, rest = ws ++ ((t :: tok) ++ r2) ∧
        (∀ x ∈ t :: tok, x ≠ 0 ∧ isSpace x = false) ∧
        (r2 = [] ∨ ∃ c rs, r2 = c :: rs ∧ isSpace c = true)) := by
  intro rest h0
  refine ⟨rest.takeWhile isSpace, fun x hx => List.mem_takeWhile_imp hx, ?_⟩
  rcases hd : rest.dropWhile isSpace with _ | ⟨t, r⟩
  · left
    have := List.takeWhile_append_dropWhile isSpace rest
    rw [hd] at this; simpa using this.symm
  · right
    have ht : isSpace t = false := by
      have := List.head_dropWhile_not isSpace rest (by simp [hd])
      simpa [hd] using this
    have hsplit := List.takeWhile_append_dropWhile isSpace rest
    have hmem : ∀ x ∈ t :: r, x ≠ 0 := fun x hx => h0 x (by
      rw [← hsplit, hd]; exact List.mem_append_right _ hx)
    refine ⟨t, r.takeWhile (fun x => !isSpace x), r.dropWhile (fun x => !isSpace x), ?_, ?_, ?_⟩
    · rw [List.cons_append, List.takeWhile_append_dropWhile, ← hd, hsplit]
    · intro x hx
      rcases List.mem_cons.1 hx with rfl | hx
      · exact ⟨hmem _ (by simp), ht⟩
      · refine ⟨hmem x (List.mem_cons_of_mem _ (List.takeWhile_subset _ hx)), ?_⟩
        simpa using List.mem_takeWhile_imp hx
    · rcases hd2 : r.dropWhile (fun x => !isSpace x) with _ | ⟨c, rs⟩
      · exact Or.inl rfl
      · right
        refine ⟨c, rs, rfl, ?_⟩
        have := List.head_dropWhile_not (fun x => !isSpace x) r (by simp [hd2])
        simpa [hd2] using this

/-! ## The parsing loop -/

theorem getElem?_mid2 (pre mid post : List Nat) (x : Nat) :
    (pre ++ (mid ++ x :: post))[pre.length + mid.length]? = some x := by
  rw [← List.append_assoc, ← List.length_append]; exact getElem?_mid _ _ _

theorem setSlot_ok (argv : List Ptr) (i : Nat) (v : Ptr) (h : i < argv.length) :
    setSlot argv i v = Except.ok (argv.set i v) := by
  simp [setSlot, h]

theorem head_zero_of (ws post : List Nat) :
    (List.replicate ws.length 0 ++ 0 :: post)[0]? = some 0 := by
  cases ws <;> simp [List.replicate_succ]

theorem tok_in_place (mem A T : List Nat) (h1 : mem.take (A ++ T).length = A ++ T)
    (h2 : mem[(A ++ T).length]? = some 0) :
    (mem.drop A.length).take (T.length + 1) = T ++ [0] := by
  obtain ⟨hlt, hget⟩ := List.getElem?_eq_some_iff.1 h2
  have hm : mem = (A ++ T) ++ 0 :: mem.drop ((A ++ T).length + 1) := by
    conv_lhs => rw [← List.take_append_drop (A ++ T).length mem, h1]
    rw [List.drop_eq_getElem_cons hlt, hget]
  rw [hm, List.append_assoc, List.drop_left']
  · have : T ++ 0 :: List.drop ((A ++ T).length + 1) mem
        = (T ++ [0]) ++ List.drop ((A ++ T).length + 1) mem := by simp
    rw [this, List.take_left']
    simp
  · rfl

theorem parseLoop_spec (tail : List Nat) :
    ∀ (fuel : Nat) (rest pre : List Nat) (argv : List Ptr) (argc : Nat),
      rest.length < fuel → (∀ c ∈ rest, c ≠ 0) → argv.length = 16 → argc ≤ 15 →
      ∃ r, parseLoop fuel (pre ++ (rest ++ 0 :: tail)) pre.length argv argc = Except.ok r ∧
        r.overflow = decide (15 < argc + (wordsOf rest).length) ∧
        r.argc = min (argc + (wordsOf rest).length) 15 ∧
        r.argv.length = 16 ∧
        r.mem.take pre.length = pre ∧
        ((rest = [] ∨ ∃ c rs, rest = c :: rs ∧ isSpace c = true) → r.mem[pre.length]? = some 0) ∧
        (∀ i, (i < argc ∨ r.argc ≤ i) → r.argv[i]? = argv[i]?) ∧
        (∀ j w, (wordsOf rest)[j]? = some w → argc + j < 15 →
          ∃ off, r.argv[argc + j]? = some (Ptr.at (pre.length + off)) ∧
            (rest.drop off).take w.length = w ∧
            (r.mem.drop (pre.length + off)).take (w.length + 1) = w ++ [0]) := by
  intro fuel
  induction fuel with
  | zero => intro rest pre argv argc hf; omega
  | succ f ih =>
    intro rest pre argv argc hf h0 hlen hargc
    obtain ⟨ws, hws, hcase⟩ := line_cases rest h0
    rcases hcase with rfl | ⟨t, tok, r2, rfl, htok, hr2⟩
    · have hg := gobble_spec tail 0 (by decide) rest pre
        ((pre ++ (rest ++ 0 :: tail)).length + 1) hws (by simp; omega)
      have hw : wordsOf rest = [] := by
        have := wordsOf_ws [] rest hws
        rwa [List.append_nil, wordsOf_nil] at this
      rw [parseLoop, hg]
      simp only [getElem?_mid2, List.length_replicate]
      have hget : (pre ++ (List.replicate rest.length 0 ++ 0 :: tail))[pre.length + rest.length]?
          = some 0 := by
        have := getElem?_mid2 pre (List.replicate rest.length 0) tail 0
        simpa using this
      simp only [hget, if_true]
      refine ⟨_, rfl, ?_, ?_, hlen, ?_, ?_, ?_, ?_⟩
      · simp [hw]; omega
      · simp [hw]; omega
      · simp
      · intro _
        rw [List.getElem?_append_right (Nat.le_refl _)]
        simpa using head_zero_of rest tail
      · intro i _; rfl
      · intro j w hj; simp [hw] at hj
    · obtain ⟨Z, hZ⟩ : ∃ Z, Z = List.replicate ws.length 0 := ⟨_, rfl⟩
      have hZlen : Z.length = ws.length := by simp [hZ]
      have ht : isSpace t = false := (htok t (by simp)).2
      have ht0 : t ≠ 0 := (htok t (by simp)).1
      have hW : wordsOf (ws ++ ((t :: tok) ++ r2)) = (t :: tok) :: wordsOf r2 := by
        rw [wordsOf_ws _ ws hws]
        exact wordsOf_tok _ _ (by simp) (fun x hx => (htok x hx).2) hr2
      have hmem : pre ++ ((ws ++ ((t :: tok) ++ r2)) ++ 0 :: tail)
          = pre ++ (ws ++ t :: (tok ++ (r2 ++ 0 :: tail))) := by simp
      have hg := gobble_spec (tok ++ (r2 ++ 0 :: tail)) t ht ws pre
        ((pre ++ (ws ++ t :: (tok ++ (r2 ++ 0 :: tail)))).length + 1) hws (by simp; omega)
      rw [← hZ] at hg
      have hget : (pre ++ (Z ++ t :: (tok ++ (r2 ++ 0 :: tail))))[pre.length + ws.length]?
          = some t := by
        rw [← hZlen]; exact getElem?_mid2 _ _ _ _
      rw [parseLoop, hmem, hg]
      simp only [hget, ht0, if_false]
      by_cases h15 : argc = 15
      · subst h15
        simp only [MAXARGS, if_true]
        refine ⟨_, rfl, ?_, ?_, hlen, ?_, ?_, ?_, ?_⟩
        · rw [hW]; simp
        · rw [hW]; simp
        · simp
        · rintro (h | ⟨c, rs, h, hc⟩)
          · simp at h
          · rcases ws with _ | ⟨w, ws⟩
            · simp at h; rw [← h.1, ht] at hc; simp at hc
            · rw [List.getElem?_append_right (Nat.le_refl _)]
              simp [hZ, List.replicate_succ]
        · intro i _; rfl
        · intro j w _ hj; omega
      · have hargc1 : argc < 15 := by omega
        simp only [MAXARGS, h15, if_false]
        rw [setSlot_ok _ _ _ (by omega)]
        simp only []
        obtain ⟨c2, post2, hpost, hc2⟩ : ∃ c2 post2, r2 ++ 0 :: tail = c2 :: post2 ∧
            (c2 = 0 ∨ isSpace c2 = true) := by
          rcases hr2 with rfl | ⟨c, rs, rfl, hc⟩
          · exact ⟨0, tail, rfl, Or.inl rfl⟩
          · exact ⟨c, rs ++ 0 :: tail, rfl, Or.inr hc⟩
        have hmem1 : pre ++ (Z ++ t :: (tok ++ (r2 ++ 0 :: tail)))
            = (pre ++ Z) ++ ((t :: tok) ++ c2 :: post2) := by simp [hpost]
        have hs := scanArg_spec post2 c2 hc2 (t :: tok) (pre ++ Z)
          (((pre ++ Z) ++ ((t :: tok) ++ c2 :: post2)).length + 1) htok (by simp; omega)
        have hp1 : (pre ++ Z).length = pre.length + ws.length := by simp [hZlen]
        rw [← hmem1, hp1] at hs
        rw [hs]
        simp only []
        have hmem2 : pre ++ (Z ++ t :: (tok ++ (r2 ++ 0 :: tail)))
            = (pre ++ (Z ++ (t :: tok))) ++ (r2 ++ 0 :: tail) := by simp
        have hp2 : pre.length + ws.length + (t :: tok).length
            = (pre ++ (Z ++ (t :: tok))).length := by
          simp [hZlen]; omega
        rw [hmem2, hp2]
        obtain ⟨r, hr, hov, hac, hal, htake, hhead, hkeep, htoks⟩ :=
          ih r2 (pre ++ (Z ++ (t :: tok))) (argv.set argc (Ptr.at (pre.length + ws.length)))
            (argc + 1) (by simp at hf; omega)
            (fun c hc => h0 c (by simp [hc])) (by simpa using hlen) (by omega)
        have hrac : argc + 1 ≤ r.argc := by rw [hac]; omega
        refine ⟨r, hr, ?_, ?_, hal, ?_, ?_, ?_, ?_⟩
        · rw [hov, hW]; simp only [List.length_cons]
          congr 1; apply propext; omega
        · rw [hac, hW]; simp only [List.length_cons]; omega
        · have := congrArg (List.take pre.length) htake
          rw [List.take_take, List.take_left' rfl, Nat.min_eq_left (by simp)] at this
          exact this
        · rintro (h | ⟨c, rs, h, hc⟩)
          · simp at h
          · rcases ws with _ | ⟨w, ws⟩
            · simp at h; rw [← h.1, ht] at hc; simp at hc
            · have h1 : r.mem[pre.length]? = (r.mem.take (pre ++ (Z ++ (t :: tok))).length)[pre.length]? := by
                rw [List.getElem?_take]; simp
              rw [h1, htake, List.getElem?_append_right (Nat.le_refl _)]
              simp [hZ, List.replicate_succ]
        · intro i hi
          rw [hkeep i (by omega), List.getElem?_set_ne (by omega)]
        · intro j w hj hlt
          rw [hW] at hj
          rcases j with _ | j
          · simp at hj; subst hj
            refine ⟨ws.length, ?_, ?_, ?_⟩
            · rw [Nat.add_zero, hkeep argc (by omega), List.getElem?_set_self (by omega)]
            · rw [List.drop_left', List.take_left']
              rfl; rfl
            · have := tok_in_place r.mem (pre ++ Z) (t :: tok)
                (by simpa using htake) (by simpa using hhead hr2)
              simpa [hZlen] using this
          · simp at hj
            obtain ⟨off, ho1, ho2, ho3⟩ := htoks j w hj (by omega)
            have e1 : argc + (j + 1) = argc + 1 + j := by omega
            have e2 : pre.length + (ws.length + (t :: tok).length + off)
                = (pre ++ (Z ++ (t :: tok))).length + off := by
              simp [hZlen]; omega
            have e3 : List.drop (ws.length + (t :: tok).length + off) (ws ++ ((t :: tok) ++ r2))
                = List.drop off r2 := by
              rw [← List.append_assoc, ← List.length_append, List.drop_append]
            refine ⟨ws.length + (t :: tok).length + off, ?_, ?_, ?_⟩
            · rw [e1, e2]; exact ho1
            · rw [e3]; exact ho2
            · rw [e2]; exact ho3

/-! ## The tokenizer as a whole -/

theorem splitOnP_pieces (p : Nat → Bool) :
    ∀ (l : List Nat), ∀ w ∈ l.splitOnP p, ∀ c ∈ w, p c = false ∧ c ∈ l := by
  intro l
  induction l with
  | nil => intro w hw c hc; simp [List.splitOnP_nil] at hw; subst hw; simp at hc
  | cons x xs ih =>
    intro w hw c hc
    rw [List.splitOnP_cons] at hw
    by_cases hx : p x = true
    · simp only [hx, if_true, List.mem_cons] at hw
      rcases hw with rfl | hw
      · simp at hc
      · exact ⟨(ih w hw c hc).1, List.mem_cons_of_mem _ (ih w hw c hc).2⟩
    · simp only [hx] at hw
      rcases hs : List.splitOnP p xs with _ | ⟨h, tl⟩
      · exact absurd hs (List.splitOnP_ne_nil p xs)
      · rw [hs] at hw ih
        simp only [if_false, List.modifyHead_cons] at hw
        rcases List.mem_cons.1 hw with hw | hw
        · rw [hw] at hc
          rcases List.mem_cons.1 hc with rfl | hc
          · exact ⟨by simpa using hx, by simp⟩
          · have := ih h (by simp) c hc
            exact ⟨this.1, List.mem_cons_of_mem _ this.2⟩
        · have := ih w (by simp [hw]) c hc
          exact ⟨this.1, List.mem_cons_of_mem _ this.2⟩

theorem wordsOf_mem {line w : List Nat} (hw : w ∈ wordsOf line) :
    w ≠ [] ∧ ∀ c ∈ w, isSpace c = false ∧ c ∈ line := by
  simp only [wordsOf, List.mem_filter] at hw
  refine ⟨?_, splitOnP_pieces isSpace line w hw.1⟩
  rintro rfl
  simp at hw

theorem cstr_of_take (mem w : List Nat) (q : Nat) (hw : ∀ c ∈ w, c ≠ 0)
    (h : (mem.drop q).take (w.length + 1) = w ++ [0]) : cstr mem q = w := by
  have hsplit := List.take_append_drop (w.length + 1) (mem.drop q)
  rw [h] at hsplit
  rw [cstr, ← hsplit, List.append_assoc, List.takeWhile_append_of_pos]
  · simp
  · intro c hc; simpa using hw c hc

theorem getElem?_of_take (mem w : List Nat) (q : Nat)
    (h : (mem.drop q).take (w.length + 1) = w ++ [0]) : mem[q + w.length]? = some 0 := by
  have h1 : ((mem.drop q).take (w.length + 1))[w.length]? = some 0 := by
    rw [h]; simp
  rw [List.getElem?_take] at h1
  simpa using h1

/-- What the tokenizer of `runcmd` computes on a NUL-terminated buffer: the
words of the line, at most `MAXARGS - 1` of them, each terminated in place. -/
theorem tokenize_spec (line tail : List Nat) (h0 : ∀ c ∈ line, c ≠ 0) :
    ∃ r, tokenize (line ++ 0 :: tail) = Except.ok r ∧
      r.overflow = decide (15 < (wordsOf line).length) ∧
      r.argc = min (wordsOf line).length 15 ∧
      r.argv.length = 16 ∧
      (r.overflow = false → r.argv[r.argc]? = some Ptr.null) ∧
      (∀ j w, (wordsOf line)[j]? = some w → j < 15 →
        ∃ q, r.argv[j]? = some (Ptr.at q) ∧
          (line.drop q).take w.length = w ∧
          (r.mem.drop q).take (w.length + 1) = w ++ [0]) := by
  obtain ⟨r, hr, hov, hac, hal, -, -, -, htoks⟩ :=
    parseLoop_spec tail ((line ++ 0 :: tail).length + 1) line [] (argvInit.set 0 Ptr.null) 0
      (by simp; omega) h0 (by simp [argvInit, MAXARGS]) (by omega)
  simp only [List.nil_append, List.length_nil, Nat.zero_add] at hr hov hac htoks
  have hinit : setSlot argvInit 0 Ptr.null = Except.ok (argvInit.set 0 Ptr.null) :=
    setSlot_ok _ _ _ (by simp [argvInit, MAXARGS])
  rw [tokenize, hinit]
  simp only [hr]
  by_cases ho : r.overflow = true
  · simp only [ho, if_true]
    refine ⟨r, rfl, hov, hac, hal, ?_, htoks⟩
    intro h; rw [ho] at h; cases h
  · have ho' : r.overflow = false := by simpa using ho
    have hle : (wordsOf line).length ≤ 15 := by
      rw [ho'] at hov; simpa using hov.symm
    have hargc : r.argc = (wordsOf line).length := by rw [hac]; omega
    simp only [ho', Bool.false_eq_true, if_false]
    rw [setSlot_ok _ _ _ (by omega)]
    refine ⟨_, rfl, ?_, ?_, ?_, ?_, ?_⟩
    · simpa using hle
    · simp only []; omega
    · simpa using hal
    · intro _; simp only []; rw [List.getElem?_set_self (by omega)]
    · intro j w hj hlt
      obtain ⟨q, h1, h2, h3⟩ := htoks j w hj hlt
      have hjlt : j < (wordsOf line).length := (List.getElem?_eq_some_iff.1 hj).1
      refine ⟨q, ?_, h2, h3⟩
      simp only []
      rw [List.getElem?_set_ne (by omega)]; exact h1

theorem isSpace_iff (c : Nat) : isSpace c = true ↔ (c = 9 ∨ c = 13 ∨ c = 10 ∨ c = 32) := by
  simp [isSpace, or_assoc]

theorem isSpace_false_iff (c : Nat) :
    isSpace c = false ↔ (c ≠ 9 ∧ c ≠ 13 ∧ c ≠ 10 ∧ c ≠ 32) := by
  simp [isSpace, and_assoc]

theorem contains_zero_of (mem : List Nat) (q n : Nat) (h : mem[q + n]? = some 0) :
    (mem.drop q).contains 0 = true := by
  have h1 : (mem.drop q)[n]? = some 0 := by rw [List.getElem?_drop]; exact h
  simpa using List.getElem?_mem h1

theorem argStr_of_take (mem : List Nat) (argv : List Ptr) (i q : Nat) (w : List Nat)
    (hw : ∀ c ∈ w, c ≠ 0) (hq : argv[i]? = some (Ptr.at q))
    (h : (mem.drop q).take (w.length + 1) = w ++ [0]) :
    argStr ⟨mem, argv⟩ i = Except.ok w := by
  simp only [argStr, hq, contains_zero_of mem q w.length (getElem?_of_take mem w q h),
    if_true, cstr_of_take mem w q hw h]

/-! ## Lookup and dispatch -/

theorem strcmp_eq_zero_iff : ∀ (s n : List Nat), (∀ c ∈ s, c ≠ 0) → (∀ c ∈ n, c ≠ 0) →
    (strcmp s n = 0 ↔ s = n) := by
  intro s
  induction s with
  | nil =>
    intro n _ hn
    cases n with
    | nil => simp [strcmp]
    | cons q qs =>
      have : q ≠ 0 := hn q (by simp)
      simp [strcmp]; omega
  | cons p ps ih =>
    intro n hs hn
    have hp : p ≠ 0 := hs p (by simp)
    cases n with
    | nil => simp [strcmp]; omega
    | cons q qs =>
      have := ih qs (fun c hc => hs c (by simp [hc])) (fun c hc => hn c (by simp [hc]))
      by_cases hpq : p = q
      · simp [strcmp, hpq, this]
      · simp [strcmp, hpq]; omega

/-- The lookup loop of `runcmd` refines the lookup of the specification: it
calls the first descriptor whose name is exactly `argv[0]`, and reports an
unknown command when there is none. -/
theorem dispatch_lookup (argc : Nat) (argv : Argv) (tf : Option Trapframe) (m : Machine)
    (s : List Nat) (hs : argStr argv 0 = Except.ok s) (hs0 : ∀ c ∈ s, c ≠ 0) :
    ∀ cmds : List Command, (∀ d ∈ cmds, ∀ x ∈ bytes d.name, x ≠ 0) →
      dispatch cmds argc argv tf m =
        match lookup cmds s with
        | some c => c.func argc argv tf m
        | none => Except.ok ⟨0, tf, cprintf ("Unknown command \x27" ++ text s ++ "\x27\n") m⟩ := by
  intro cmds
  induction cmds with
  | nil => intro _; simp [dispatch, hs, lookup]
  | cons c cs ih =>
    intro hn
    have hc := strcmp_eq_zero_iff s (bytes c.name) hs0 (hn c (by simp))
    have ih' := ih (fun d hd => hn d (by simp [hd]))
    by_cases heq : s = bytes c.name
    · have h1 : strcmp s (bytes c.name) = 0 := hc.2 heq
      have h2 : (bytes c.name == s) = true := by simp [heq]
      simp only [dispatch, hs, h1, if_true, lookup, List.find?_cons, h2]
    · have h1 : ¬ strcmp s (bytes c.name) = 0 := fun h => heq (hc.1 h)
      have h2 : ¬ bytes c.name = s := fun h => heq h.symm
      simp only [dispatch, hs, h1, if_false, ih']
      simp [lookup, List.find?_cons, h2]

theorem lookup_none (cmds : List Command) (s : List Nat)
    (h : ∀ c ∈ cmds, s ≠ bytes c.name) : lookup cmds s = none := by
  simp only [lookup, List.find?_eq_none]
  intro c hc
  simpa using fun e => h c hc e.symm

theorem lookup_nodup : ∀ (cmds : List Command), (cmds.map (fun c => bytes c.name)).Nodup →
    ∀ (i : Nat) (hi : i < cmds.length), lookup cmds (bytes (cmds[i]).name) = some cmds[i] := by
  intro cmds
  induction cmds with
  | nil => intro _ i hi; simp at hi
  | cons c cs ih =>
    intro hnd i hi
    rw [List.map_cons, List.nodup_cons] at hnd
    cases i with
    | zero => simp [lookup]
    | succ i =>
      have hi' : i < cs.length := by simpa using hi
      have hne : ¬ bytes c.name = bytes (cs[i]).name := by
        intro e
        apply hnd.1
        rw [e]
        exact List.mem_map.2 ⟨cs[i], List.getElem_mem hi', rfl⟩
      have := ih hnd.2 i hi'
      simp only [lookup] at this ⊢
      simp [List.find?_cons, hne, this]

/-- What `runcmd` does on a NUL-terminated line of one to fifteen words: the
tokenizer delivers the words, and the outcome is that of the first descriptor
named by the first word, or the report of an unknown command. -/
theorem runcmd_spec (cmds : List Command) (hnames : ∀ d ∈ cmds, ∀ x ∈ bytes d.name, x ≠ 0)
    (line tail : List Nat) (tf : Option Trapframe) (m : Machine) (h0 : ∀ c ∈ line, c ≠ 0)
    (w0 : List Nat) (ws : List (List Nat)) (hW : wordsOf line = w0 :: ws)
    (hn : (wordsOf line).length ≤ 15) :
    ∃ r, tokenize (line ++ 0 :: tail) = Except.ok r ∧ r.overflow = false ∧
      r.argc = (wordsOf line).length ∧ r.argv[r.argc]? = some Ptr.null ∧
      (∀ i, i < r.argc → ∃ w, (wordsOf line)[i]? = some w ∧
        argStr ⟨r.mem, r.argv⟩ i = Except.ok w) ∧
      runcmd cmds (line ++ 0 :: tail) tf m =
        match lookup cmds w0 with
        | some c => c.func r.argc ⟨r.mem, r.argv⟩ tf m
        | none => Except.ok ⟨0, tf, cprintf ("Unknown command \x27" ++ text w0 ++ "\x27\n") m⟩ := by
  obtain ⟨r, hr, hov, hac, -, hnull, htoks⟩ := tokenize_spec line tail h0
  have hov' : r.overflow = false := by rw [hov]; simpa using hn
  have hac' : r.argc = (wordsOf line).length := by rw [hac]; omega
  have hnz : ∀ w ∈ wordsOf line, ∀ c ∈ w, c ≠ 0 := fun w hw c hc =>
    h0 c ((wordsOf_mem hw).2 c hc).2
  have harg : ∀ i, i < r.argc → ∃ w, (wordsOf line)[i]? = some w ∧
      argStr ⟨r.mem, r.argv⟩ i = Except.ok w := by
    intro i hi
    have hi' : i < (wordsOf line).length := by omega
    obtain ⟨q, hq, -, hterm⟩ :=
      htoks i (wordsOf line)[i] (List.getElem?_eq_getElem hi') (by omega)
    exact ⟨_, List.getElem?_eq_getElem hi',
      argStr_of_take _ _ _ _ _ (hnz _ (List.getElem_mem hi')) hq hterm⟩
  refine ⟨r, hr, hov', hac', hnull hov', harg, ?_⟩
  have hpos : r.argc ≠ 0 := by rw [hac', hW]; simp
  obtain ⟨w, hw, hs⟩ := harg 0 (by omega)
  have hw0 : w = w0 := by rw [hW] at hw; simpa using hw.symm
  subst hw0
  simp only [runcmd, hr, hov', Bool.false_eq_true, if_false, hpos]
  exact dispatch_lookup _ _ _ _ w hs (hnz w (by rw [hW]; simp)) cmds hnames

theorem registry_names_nonzero (cmds : List Command)
    (h : cmds.map (fun c => c.name) = commandText.map Prod.fst) :
    ∀ d ∈ cmds, ∀ x ∈ bytes d.name, x ≠ 0 := by
  intro d hd
  have hm : d.name ∈ commandText.map Prod.fst := by
    rw [← h]; exact List.mem_map.2 ⟨d, hd, rfl⟩
  have hall : ∀ n ∈ commandText.map Prod.fst, ∀ x ∈ bytes n, x ≠ 0 := by decide
  exact hall _ hm

theorem registry_names_nodup (cmds : List Command)
    (h : cmds.map (fun c => c.name) = commandText.map Prod.fst) :
    (cmds.map (fun c => bytes c.name)).Nodup := by
  have : cmds.map (fun c => bytes c.name) = (cmds.map (fun c => c.name)).map bytes := by
    simp [List.map_map, Function.comp_def]
  rw [this, h]
  decide

/-! ## The stack unwinder -/

theorem load32_congr {m1 m2 : Machine} (h : m1.word = m2.word) (a : Nat) :
    load32 m1 a = load32 m2 a := by
  simp [load32, h]

theorem frameLine_congr {m1 m2 : Machine} (h : m1.word = m2.word) (ebp : Nat) :
    frameLine m1 ebp = frameLine m2 ebp := by
  simp [frameLine, load32_congr h]

theorem printArgs_out (ebp : Nat) (m : Machine) :
    printArgs ebp m = { m with out := (m.out ++
      (List.range 5).map (fun i => " " ++ fmt_08x (load32 m ((ebp + 8 + i * 4) % 2 ^ 32)) ++ " ")) } := by
  simp [printArgs, List.range, List.range.loop, cprintf]

/-- One iteration of the loop of `mon_backtrace` at a non-null frame pointer:
it writes the call-frame line of the frame and the line of the resolver, and
goes on from the frame stored at offset 0. -/
theorem backtraceLoop_step (k : Kernel) (fuel ebp : Nat) (info : Eipdebuginfo) (m : Machine)
    (h : ebp ≠ 0) :
    backtraceLoop k (fuel + 1) ebp info m =
      backtraceLoop k fuel (load32 m ebp)
        (k.debuginfo_eip (load32 m ((ebp + 4) % 2 ^ 32)) info).2
        { m with out := (m.out ++ (frameLine m ebp ++
          [infoLine (load32 m ((ebp + 4) % 2 ^ 32))
            (k.debuginfo_eip (load32 m ((ebp + 4) % 2 ^ 32)) info).2])) } := by
  rw [backtraceLoop]
  simp only [h, if_false]
  congr 1
  simp [printArgs_out, cprintf, frameLine, load32]

theorem backtraceLoop_chain (k : Kernel) (w : Machine) :
    ∀ (frames : List Nat) (fuel ebp : Nat) (info : Eipdebuginfo) (m : Machine),
      m.word = w.word → IsChain w ebp frames → frames.length ≤ fuel →
      ∃ infoLines : List String, infoLines.length = frames.length ∧
        backtraceLoop k fuel ebp info m = Except.ok { m with out := (m.out ++
          (List.zipWith (fun f l => frameLine w f ++ [l]) frames infoLines).flatten) } := by
  intro frames
  induction frames with
  | nil =>
    intro fuel ebp info m _ hc _
    have : ebp = 0 := hc
    subst this
    refine ⟨[], rfl, ?_⟩
    rw [backtraceLoop.eq_def]; simp
  | cons f fs ih =>
    intro fuel ebp info m hw hc hf
    obtain ⟨rfl, hne, -, hrest⟩ := hc
    obtain ⟨fuel, rfl⟩ : ∃ n, fuel = n + 1 := ⟨fuel - 1, by simp at hf; omega⟩
    rw [backtraceLoop_step k fuel ebp info m hne]
    obtain ⟨ls, hlen, hrun⟩ := ih fuel (load32 m ebp)
      (k.debuginfo_eip (load32 m ((ebp + 4) % 2 ^ 32)) info).2
      { m with out := (m.out ++ (frameLine m ebp ++
          [infoLine (load32 m ((ebp + 4) % 2 ^ 32))
            (k.debuginfo_eip (load32 m ((ebp + 4) % 2 ^ 32)) info).2])) }
      hw (by rw [load32_congr hw]; exact hrest) (by simp at hf; omega)
    refine ⟨infoLine (load32 m ((ebp + 4) % 2 ^ 32))
      (k.debuginfo_eip (load32 m ((ebp + 4) % 2 ^ 32)) info).2 :: ls, by simp [hlen], ?_⟩
    rw [hrun]
    simp [frameLine_congr hw]

theorem backtraceLoop_cyclic (k : Kernel) (ebp : Nat) (h : ebp ≠ 0) :
    ∀ (fuel : Nat) (info : Eipdebuginfo) (m : Machine), load32 m ebp = ebp →
      backtraceLoop k fuel ebp info m = Except.error Fault.fuel := by
  intro fuel
  induction fuel with
  | zero => intro info m _; rw [backtraceLoop.eq_def]; simp [h]
  | succ n ih =>
    intro info m hm
    rw [backtraceLoop_step k n ebp info m h, hm]
    exact ih _ _ ((@load32_congr _ m rfl ebp).trans hm)

/-! ## `runcmd` on the command table -/

theorem runcmd_overflow (cmds : List Command) (line tail : List Nat) (tf : Option Trapframe)
    (m : Machine) (h0 : ∀ c ∈ line, c ≠ 0) (hn : 15 < (wordsOf line).length) :
    runcmd cmds (line ++ 0 :: tail) tf m
      = Except.ok ⟨0, tf, { m with out := m.out ++ ["Too many arguments (max 16)\n"] }⟩ := by
  obtain ⟨r, hr, hov, -, -, -, -⟩ := tokenize_spec line tail h0
  have hov' : r.overflow = true := by rw [hov]; simpa using hn
  have hfmt : fmt_d (MAXARGS : Nat) = "16" := by decide
  simp only [runcmd, hr, hov', if_true, hfmt, cprintf]
  rfl

theorem runcmd_empty (cmds : List Command) (line tail : List Nat) (tf : Option Trapframe)
    (m : Machine) (h0 : ∀ c ∈ line, c ≠ 0) (hn : wordsOf line = []) :
    runcmd cmds (line ++ 0 :: tail) tf m = Except.ok ⟨0, tf, m⟩ := by
  obtain ⟨r, hr, hov, hac, -, -, -⟩ := tokenize_spec line tail h0
  rw [hn] at hov hac
  have hov' : r.overflow = false := by simpa using hov
  have hac' : r.argc = 0 := by simpa using hac
  simp [runcmd, hr, hov', hac']

/-- The lookup in the table `commands`, spelt out name by name. -/
theorem lookup_commands (k : Kernel) (fuel : Nat) (s : List Nat) :
    lookup (commands k fuel) s =
      if s = bytes "help" then some ⟨"help", "Display this list of commands", mon_help⟩
      else if s = bytes "kerninfo" then
        some ⟨"kerninfo", "Display information about the kernel", mon_kerninfo k⟩
      else if s = bytes "backtrace" then
        some ⟨"backtrace", "Display a listing of function call frames", mon_backtrace k fuel⟩
      else if s = bytes "show" then some ⟨"show", "Display colorful ASCII art", mon_show⟩
      else if s = bytes "si" then
        some ⟨"si", "Run next instruction and trap back into monitor", mon_si⟩
      else none := by
  simp only [lookup, commands, List.find?_cons, List.find?_nil, beq_iff_eq]
  by_cases h1 : s = bytes "help"
  · subst h1; rfl
  · by_cases h2 : s = bytes "kerninfo"
    · subst h2; rfl
    · by_cases h3 : s = bytes "backtrace"
      · subst h3; rfl
      · by_cases h4 : s = bytes "show"
        · subst h4; rfl
        · by_cases h5 : s = bytes "si"
          · subst h5; rfl
          · have e1 : (bytes "help" == s) = false := by simpa using fun e => h1 e.symm
            have e2 : (bytes "kerninfo" == s) = false := by simpa using fun e => h2 e.symm
            have e3 : (bytes "backtrace" == s) = false := by simpa using fun e => h3 e.symm
            have e4 : (bytes "show" == s) = false := by simpa using fun e => h4 e.symm
            have e5 : (bytes "si" == s) = false := by simpa using fun e => h5 e.symm
            simp only [e1, e2, e3, e4, e5, h1, h2, h3, h4, h5, if_false]

/-- The outcome of `runcmd` with the table `commands` on a NUL-terminated line
of one to fifteen words, by the first word. -/
theorem runcmd_commands (k : Kernel) (fuel : Nat) (line tail : List Nat)
    (tf : Option Trapframe) (m : Machine) (h0 : ∀ c ∈ line, c ≠ 0)
    (w0 : List Nat) (ws : List (List Nat)) (hW : wordsOf line = w0 :: ws)
    (hn : (wordsOf line).length ≤ 15) :
    ∃ argv : Argv, runcmd (commands k fuel) (line ++ 0 :: tail) tf m =
      if w0 = bytes "help" then mon_help (wordsOf line).length argv tf m
      else if w0 = bytes "kerninfo" then mon_kerninfo k (wordsOf line).length argv tf m
      else if w0 = bytes "backtrace" then mon_backtrace k fuel (wordsOf line).length argv tf m
      else if w0 = bytes "show" then mon_show (wordsOf line).length argv tf m
      else if w0 = bytes "si" then mon_si (wordsOf line).length argv tf m
      else Except.ok ⟨0, tf,
        { m with out := m.out ++ ["Unknown command \x27" ++ text w0 ++ "\x27\n"] }⟩ := by
  obtain ⟨r, -, -, hac, -, -, hrun⟩ :=
    runcmd_spec (commands k fuel) (registry_names_nonzero _ rfl) line tail tf m h0 w0 ws hW hn
  refine ⟨⟨r.mem, r.argv⟩, ?_⟩
  rw [hrun, lookup_commands, hac]
  by_cases h1 : w0 = bytes "help"
  · simp only [if_pos h1]
  · by_cases h2 : w0 = bytes "kerninfo"
    · simp only [if_neg h1, if_pos h2]
    · by_cases h3 : w0 = bytes "backtrace"
      · simp only [if_neg h1, if_neg h2, if_pos h3]
      · by_cases h4 : w0 = bytes "show"
        · simp only [if_neg h1, if_neg h2, if_neg h3, if_pos h4]
        · by_cases h5 : w0 = bytes "si"
          · simp only [if_neg h1, if_neg h2, if_neg h3, if_neg h4, if_pos h5]
          · simp only [if_neg h1, if_neg h2, if_neg h3, if_neg h4, if_neg h5]
            rfl

theorem mon_help_ok (argc : Nat) (argv : Argv) (tf : Option Trapframe) (m : Machine) :
    mon_help argc argv tf m = Except.ok ⟨0, tf, { m with out := (m.out ++
      commandText.map (fun c => c.1 ++ " - " ++ c.2 ++ "\n")) }⟩ := by
  simp [mon_help, commandText, cprintf]

theorem mon_kerninfo_ok (k : Kernel) (argc : Nat) (argv : Argv) (tf : Option Trapframe)
    (m : Machine) : ∃ m1, mon_kerninfo k argc argv tf m = Except.ok ⟨0, tf, m1⟩ :=
  ⟨_, rfl⟩

theorem mon_show_ok (argc : Nat) (argv : Argv) (tf : Option Trapframe) (m : Machine) :
    ∃ m1, mon_show argc argv tf m = Except.ok ⟨0, tf, m1⟩ :=
  ⟨_, rfl⟩

theorem mon_backtrace_ok (k : Kernel) (fuel argc : Nat) (argv : Argv) (tf : Option Trapframe)
    (m : Machine) (o : Outcome) (h : mon_backtrace k fuel argc argv tf m = Except.ok o) :
    o.status = 0 ∧ o.tf = tf := by
  simp only [mon_backtrace] at h
  split at h
  · cases h
  · cases h; exact ⟨rfl, rfl⟩

/-- The two ways in which `runcmd` with the table `commands` can return: with
status 0 and the trap frame as given, or, for a line of at most 15 words that
starts with "si" and a frame present, with status -1 and the trap flag set. -/
theorem runcmd_outcome (k : Kernel) (fuel : Nat) (line tail : List Nat)
    (tf : Option Trapframe) (m : Machine) (h0 : ∀ c ∈ line, c ≠ 0) (o : Outcome)
    (h : runcmd (commands k fuel) (line ++ 0 :: tail) tf m = Except.ok o) :
    (o.status = 0 ∧ o.tf = tf ∧
      ¬ (tf.isSome = true ∧ (wordsOf line).length ≤ 15 ∧
        (wordsOf line).head? = some (bytes "si"))) ∨
    (o.status = -1 ∧ (wordsOf line).length ≤ 15 ∧ (wordsOf line).head? = some (bytes "si") ∧
      o.m = m ∧
      ∃ t, tf = some t ∧ o.tf = some { t with tf_eflags := t.tf_eflags ||| FL_TF }) := by
  by_cases hov : 15 < (wordsOf line).length
  · rw [runcmd_overflow _ line tail tf m h0 hov] at h
    cases h
    exact Or.inl ⟨rfl, rfl, fun hh => by omega⟩
  · have hn : (wordsOf line).length ≤ 15 := by omega
    rcases hW : wordsOf line with _ | ⟨w0, ws⟩
    · rw [runcmd_empty _ line tail tf m h0 hW] at h
      cases h
      exact Or.inl ⟨rfl, rfl, fun hh => by simp at hh⟩
    · obtain ⟨argv, hrun⟩ := runcmd_commands k fuel line tail tf m h0 w0 ws hW hn
      rw [hrun] at h
      have hlen : (w0 :: ws).length ≤ 15 := by rw [← hW]; exact hn
      have hnotsi : w0 ≠ bytes "si" → ¬ (tf.isSome = true ∧ (w0 :: ws).length ≤ 15 ∧
          (w0 :: ws).head? = some (bytes "si")) := by
        intro hne hh
        apply hne
        simpa using hh.2.2
      by_cases h1 : w0 = bytes "help"
      · rw [if_pos h1, mon_help_ok] at h
        cases h
        exact Or.inl ⟨rfl, rfl, hnotsi (by rw [h1]; decide)⟩
      · rw [if_neg h1] at h
        by_cases h2 : w0 = bytes "kerninfo"
        · obtain ⟨m1, hm1⟩ := mon_kerninfo_ok k (wordsOf line).length argv tf m
          rw [if_pos h2, hm1] at h
          cases h
          exact Or.inl ⟨rfl, rfl, hnotsi (by rw [h2]; decide)⟩
        · rw [if_neg h2] at h
          by_cases h3 : w0 = bytes "backtrace"
          · rw [if_pos h3] at h
            obtain ⟨hs, ht⟩ := mon_backtrace_ok k fuel _ argv tf m o h
            exact Or.inl ⟨hs, ht, hnotsi (by rw [h3]; decide)⟩
          · rw [if_neg h3] at h
            by_cases h4 : w0 = bytes "show"
            · obtain ⟨m1, hm1⟩ := mon_show_ok (wordsOf line).length argv tf m
              rw [if_pos h4, hm1] at h
              cases h
              exact Or.inl ⟨rfl, rfl, hnotsi (by rw [h4]; decide)⟩
            · rw [if_neg h4] at h
              by_cases h5 : w0 = bytes "si"
              · rw [if_pos h5] at h
                cases tf with
                | none =>
                  simp only [mon_si] at h
                  cases h
                  exact Or.inl ⟨rfl, rfl, fun hh => by simp at hh⟩
                | some t =>
                  simp only [mon_si] at h
                  cases h
                  exact Or.inr ⟨rfl, hlen, by simp [h5], rfl, t, rfl, rfl⟩
              · rw [if_neg h5] at h
                cases h
                exact Or.inl ⟨rfl, rfl, hnotsi h5⟩

/-- With the table `commands`, `runcmd` returns on every NUL-terminated line
whose command is not an unbounded `backtrace`: on every line that overflows or
does not start with "backtrace", and on every line when its outcome for
"backtrace" is a value. -/
theorem runcmd_returns (k : Kernel) (fuel : Nat) (line tail : List Nat)
    (tf : Option Trapframe) (m : Machine) (h0 : ∀ c ∈ line, c ≠ 0)
    (hbt : (wordsOf line).head? ≠ some (bytes "backtrace") ∨ 15 < (wordsOf line).length ∨
      ∀ argc argv, ∃ o, mon_backtrace k fuel argc argv tf m = Except.ok o) :
    ∃ o, runcmd (commands k fuel) (line ++ 0 :: tail) tf m = Except.ok o := by
  by_cases hov : 15 < (wordsOf line).length
  · exact ⟨_, runcmd_overflow _ line tail tf m h0 hov⟩
  · have hn : (wordsOf line).length ≤ 15 := by omega
    rcases hW : wordsOf line with _ | ⟨w0, ws⟩
    · exact ⟨_, runcmd_empty _ line tail tf m h0 hW⟩
    · obtain ⟨argv, hrun⟩ := runcmd_commands k fuel line tail tf m h0 w0 ws hW hn
      rw [hrun]
      by_cases h1 : w0 = bytes "help"
      · rw [if_pos h1]; exact ⟨_, mon_help_ok _ _ _ _⟩
      · rw [if_neg h1]
        by_cases h2 : w0 = bytes "kerninfo"
        · rw [if_pos h2]; exact ⟨_, rfl⟩
        · rw [if_neg h2]
          by_cases h3 : w0 = bytes "backtrace"
          · rw [if_pos h3]
            rcases hbt with hbt | hbt | hbt
            · rw [hW] at hbt; simp [h3] at hbt
            · exact absurd hbt hov
            · exact hbt _ _
          · rw [if_neg h3]
            by_cases h4 : w0 = bytes "show"
            · rw [if_pos h4]; exact ⟨_, rfl⟩
            · rw [if_neg h4]
              by_cases h5 : w0 = bytes "si"
              · rw [if_pos h5]
                cases tf with
                | none => exact ⟨_, rfl⟩
                | some t => exact ⟨_, rfl⟩
              · rw [if_neg h5]; exact ⟨_, rfl⟩

theorem mon_backtrace_returns (k : Kernel) (fuel : Nat) (tf : Option Trapframe) (m : Machine)
    (frames : List Nat) (hchain : IsChain m (read_ebp m) frames) (hfuel : frames.length ≤ fuel)
    (argc : Nat) (argv : Argv) : ∃ o, mon_backtrace k fuel argc argv tf m = Except.ok o := by
  obtain ⟨ls, -, hrun⟩ := backtraceLoop_chain k m frames fuel (read_ebp m) m.info
    (cprintf "Stack backtrace:\n" m) rfl hchain hfuel
  simp only [mon_backtrace, hrun]
  exact ⟨_, rfl⟩

theorem monitorLoop_nulls (cmds : List Command) (rest : List (Option (List Nat))) :
    ∀ (j n : Nat) (tf : Option Trapframe) (m : Machine),
      monitorLoop cmds (List.replicate j none ++ rest) n tf m
        = monitorLoop cmds rest (n + j) tf { m with out := m.out ++ List.replicate j "K> " } := by
  intro j
  induction j with
  | zero => intro n tf m; simp
  | succ j ih =>
    intro n tf m
    rw [List.replicate_succ, List.cons_append, monitorLoop, ih]
    have e : n + 1 + j = n + (j + 1) := by omega
    rw [e]
    congr 1
    simp [cprintf, List.replicate_succ]

/-! ## Hexadecimal output -/

theorem toDigitsCore_length (k : Nat) : ∀ (n fuel : Nat) (ds : List Char),
    n < 16 ^ (k + 1) → n < fuel →
    (ds.length + 1 ≤ (Nat.toDigitsCore 16 fuel n ds).length ∧
      (Nat.toDigitsCore 16 fuel n ds).length ≤ ds.length + k + 1) ∧
    (16 ^ k ≤ n → (Nat.toDigitsCore 16 fuel n ds).length = ds.length + k + 1) := by
  induction k with
  | zero =>
    intro n fuel ds hn hf
    obtain ⟨f, rfl⟩ : ∃ f, fuel = f + 1 := ⟨fuel - 1, by omega⟩
    have h0 : n / 16 = 0 := by simp at hn; omega
    simp [Nat.toDigitsCore, h0]
  | succ k ih =>
    intro n fuel ds hn hf
    obtain ⟨f, rfl⟩ : ∃ f, fuel = f + 1 := ⟨fuel - 1, by omega⟩
    have hpow : 16 ^ (k + 1 + 1) = 16 * 16 ^ (k + 1) := by rw [Nat.pow_succ]; omega
    have hpow1 : 16 ^ (k + 1) = 16 * 16 ^ k := by rw [Nat.pow_succ]; omega
    by_cases h0 : n / 16 = 0
    · have hlt : n < 16 ^ (k + 1) := by
        have : 0 < 16 ^ k := Nat.pow_pos (by omega)
        omega
      simp only [Nat.toDigitsCore, h0, if_true, List.length_cons]
      refine ⟨⟨by omega, by omega⟩, fun h => by omega⟩
    · have hn' : n / 16 < 16 ^ (k + 1) := by omega
      have hf' : n / 16 < f := by omega
      obtain ⟨⟨h1, h2⟩, h3⟩ := ih (n / 16) f (Nat.digitChar (n % 16) :: ds) hn' hf'
      simp only [Nat.toDigitsCore, h0, if_false]
      simp only [List.length_cons] at h1 h2 h3
      refine ⟨⟨by omega, by omega⟩, fun h => ?_⟩
      have := h3 (by omega)
      omega

theorem toDigitsCore_hex : ∀ (fuel n : Nat) (ds : List Char),
    (∀ c ∈ ds, c ∈ "0123456789abcdef".toList) →
    ∀ c ∈ Nat.toDigitsCore 16 fuel n ds, c ∈ "0123456789abcdef".toList := by
  intro fuel
  induction fuel with
  | zero => intro n ds h; simpa [Nat.toDigitsCore] using h
  | succ f ih =>
    intro n ds h
    have hd : Nat.digitChar (n % 16) ∈ "0123456789abcdef".toList := by
      have hlt : n % 16 < 16 := Nat.mod_lt _ (by omega)
      have hall : ∀ d, d < 16 → Nat.digitChar d ∈ "0123456789abcdef".toList := by decide
      exact hall _ hlt
    have hcons : ∀ c ∈ Nat.digitChar (n % 16) :: ds, c ∈ "0123456789abcdef".toList := by
      intro c hc
      rcases List.mem_cons.1 hc with rfl | hc
      · exact hd
      · exact h c hc
    simp only [Nat.toDigitsCore]
    split
    · exact hcons
    · exact ih _ _ hcons

/-- The text of `%x` for a 32-bit value has 1 to 8 digits, 8 exactly from
`0x10000000` on. -/
theorem fmt_x_length (v : Nat) :
    1 ≤ (fmt_x v).length ∧ (fmt_x v).length ≤ 8 ∧
    ((fmt_x v).length = 8 ↔ 0x10000000 ≤ v % 2 ^ 32) := by
  have hlt : v % 2 ^ 32 < 16 ^ (7 + 1) := Nat.mod_lt _ (by decide)
  obtain ⟨⟨h1, h2⟩, h3⟩ := toDigitsCore_length 7 (v % 2 ^ 32) (v % 2 ^ 32 + 1) [] hlt (by omega)
  simp only [fmt_x, String.length_mk, Nat.toDigits]
  simp only [List.length_nil] at h1 h2 h3
  refine ⟨by omega, by omega, ⟨fun h => ?_, fun h => ?_⟩⟩
  · by_contra hc
    have hlt6 : v % 2 ^ 32 < 16 ^ (6 + 1) := by
      have : (16 : Nat) ^ (6 + 1) = 0x10000000 := by decide
      omega
    have := (toDigitsCore_length 6 (v % 2 ^ 32) (v % 2 ^ 32 + 1) [] hlt6 (by omega)).1.2
    simp only [List.length_nil] at this
    omega
  · have : (16 : Nat) ^ 7 = 0x10000000 := by decide
    have := h3 (by omega)
    omega

/-- The text of `%08x` for a 32-bit value has exactly 8 characters, all of
them hexadecimal digits. -/
theorem fmt_08x_length (v : Nat) :
    (fmt_08x v).length = 8 ∧ ∀ c ∈ (fmt_08x v).toList, c ∈ "0123456789abcdef".toList := by
  have hlt : v % 2 ^ 32 < 16 ^ (7 + 1) := Nat.mod_lt _ (by decide)
  obtain ⟨⟨h1, h2⟩, -⟩ := toDigitsCore_length 7 (v % 2 ^ 32) (v % 2 ^ 32 + 1) [] hlt (by omega)
  simp only [List.length_nil] at h1 h2
  refine ⟨?_, ?_⟩
  · simp only [fmt_08x, String.length_mk, Nat.toDigits, List.length_append,
      List.length_replicate]
    omega
  · intro c hc
    simp only [fmt_08x, String.toList, List.mem_append, List.mem_replicate] at hc
    rcases hc with ⟨-, rfl⟩ | hc
    · decide
    · exact toDigitsCore_hex _ _ [] (by simp) c hc

/-! ## The unwinder and the resolver -/

theorem frameLine_explicit (m : Machine) (f : Nat) :
    frameLine m f =
      [ "ebp " ++ fmt_x f ++ " eip " ++ fmt_x (load32 m ((f + 4) % 2 ^ 32)) ++ " args",
        " " ++ fmt_08x (load32 m ((f + 8) % 2 ^ 32)) ++ " ",
        " " ++ fmt_08x (load32 m ((f + 12) % 2 ^ 32)) ++ " ",
        " " ++ fmt_08x (load32 m ((f + 16) % 2 ^ 32)) ++ " ",
        " " ++ fmt_08x (load32 m ((f + 20) % 2 ^ 32)) ++ " ",
        " " ++ fmt_08x (load32 m ((f + 24) % 2 ^ 32)) ++ " ",
        "\n" ] := by
  simp [frameLine, List.range, List.range.loop]

/-- On a chain the loop of `mon_backtrace` writes, frame by frame, the
call-frame line and the line formatted from the content `info` left by the
resolver. -/
theorem backtraceLoop_chain_info (k : Kernel) (w : Machine) :
    ∀ (frames : List Nat) (fuel ebp : Nat) (info : Eipdebuginfo) (m : Machine),
      m.word = w.word → IsChain w ebp frames → frames.length ≤ fuel →
      ∃ infos : List Eipdebuginfo, infos.length = frames.length ∧
        backtraceLoop k fuel ebp info m = Except.ok { m with out := (m.out ++
          (List.zipWith (fun f i => frameLine w f ++
            [infoLine (load32 w ((f + 4) % 2 ^ 32)) i]) frames infos).flatten) } := by
  intro frames
  induction frames with
  | nil =>
    intro fuel ebp info m _ hc _
    have : ebp = 0 := hc
    subst this
    refine ⟨[], rfl, ?_⟩
    rw [backtraceLoop.eq_def]; simp
  | cons f fs ih =>
    intro fuel ebp info m hw hc hf
    obtain ⟨rfl, hne, -, hrest⟩ := hc
    obtain ⟨fuel, rfl⟩ : ∃ n, fuel = n + 1 := ⟨fuel - 1, by simp at hf; omega⟩
    rw [backtraceLoop_step k fuel ebp info m hne]
    obtain ⟨ls, hlen, hrun⟩ := ih fuel (load32 m ebp)
      (k.debuginfo_eip (load32 m ((ebp + 4) % 2 ^ 32)) info).2
      { m with out := (m.out ++ (frameLine m ebp ++
          [infoLine (load32 m ((ebp + 4) % 2 ^ 32))
            (k.debuginfo_eip (load32 m ((ebp + 4) % 2 ^ 32)) info).2])) }
      hw (by rw [load32_congr hw]; exact hrest) (by simp at hf; omega)
    refine ⟨(k.debuginfo_eip (load32 m ((ebp + 4) % 2 ^ 32)) info).2 :: ls, by simp [hlen], ?_⟩
    rw [hrun]
    simp [frameLine_congr hw, load32_congr hw]

theorem mon_backtrace_spec (k : Kernel) (fuel argc : Nat) (argv : Argv)
    (tf : Option Trapframe) (m : Machine) (frames : List Nat)
    (hchain : IsChain m (read_ebp m) frames) (hfuel : frames.length ≤ fuel) :
    ∃ infos : List Eipdebuginfo, infos.length = frames.length ∧
      mon_backtrace k fuel argc argv tf m = Except.ok ⟨0, tf, { m with out := (m.out ++
        "Stack backtrace:\n" :: (List.zipWith (fun f i => frameLine m f ++
          [infoLine (load32 m ((f + 4) % 2 ^ 32)) i]) frames infos).flatten) }⟩ := by
  obtain ⟨ls, hlen, hrun⟩ := backtraceLoop_chain_info k m frames fuel (read_ebp m) m.info
    (cprintf "Stack backtrace:\n" m) rfl hchain hfuel
  refine ⟨ls, hlen, ?_⟩
  simp only [mon_backtrace, hrun]
  simp [cprintf]

/-- The return value of the resolver plays no part in the loop of
`mon_backtrace`: two resolvers that leave the same content in `info` give the
same run. -/
theorem backtraceLoop_result_ignored (k1 k2 : Kernel)
    (h : ∀ a i, (k1.debuginfo_eip a i).2 = (k2.debuginfo_eip a i).2) :
    ∀ (fuel ebp : Nat) (info : Eipdebuginfo) (m : Machine),
      backtraceLoop k1 fuel ebp info m = backtraceLoop k2 fuel ebp info m := by
  intro fuel
  induction fuel with
  | zero => intro ebp info m; rw [backtraceLoop.eq_def, backtraceLoop.eq_def]
  | succ n ih =>
    intro ebp info m
    by_cases h0 : ebp = 0
    · subst h0; rw [backtraceLoop.eq_def, backtraceLoop.eq_def]; simp
    · rw [backtraceLoop_step k1 n ebp info m h0, backtraceLoop_step k2 n ebp info m h0, h, ih]

theorem zipWith_congr_left {α β γ : Type} (g h : α → β → γ) :
    ∀ (l1 : List α) (l2 : List β), (∀ a ∈ l1, ∀ b, g a b = h a b) →
      List.zipWith g l1 l2 = List.zipWith h l1 l2 := by
  intro l1
  induction l1 with
  | nil => intro l2 _; simp
  | cons a as ih =>
    intro l2 hg
    cases l2 with
    | nil => simp
    | cons b bs =>
      simp only [List.zipWith_cons_cons]
      rw [hg a (by simp) b, ih bs (fun x hx => hg x (by simp [hx]))]

theorem runcmd_backtrace (k : Kernel) (fuel : Nat) (tail : List Nat) (tf : Option Trapframe)
    (m : Machine) :
    ∃ argv : Argv, runcmd (commands k fuel) (bytes "backtrace" ++ 0 :: tail) tf m
      = mon_backtrace k fuel 1 argv tf m := by
  obtain ⟨argv, hrun⟩ := runcmd_commands k fuel (bytes "backtrace") tail tf m (by decide)
    (bytes "backtrace") [] (by decide) (by decide)
  refine ⟨argv, ?_⟩
  rw [hrun]
  rfl

theorem resolvedInfos_length (k : Kernel) (m : Machine) :
    ∀ (fs : List Nat) (info : Eipdebuginfo), (resolvedInfos k m fs info).length = fs.length := by
  intro fs
  induction fs with
  | nil => intro info; rfl
  | cons f fs ih => intro info; simp [resolvedInfos, ih]

/-- On a chain the loop of `mon_backtrace` writes, frame by frame, the
call-frame line and the line formatted from the content that the resolver,
called with the return address of the frame, has left in `info`. -/
theorem backtraceLoop_chain_resolved (k : Kernel) (w : Machine) :
    ∀ (frames : List Nat) (fuel ebp : Nat) (info : Eipdebuginfo) (m : Machine),
      m.word = w.word → IsChain w ebp frames → frames.length ≤ fuel →
      backtraceLoop k fuel ebp info m = Except.ok { m with out := (m.out ++
        (List.zipWith (fun f i => frameLine w f ++
          [infoLine (load32 w ((f + 4) % 2 ^ 32)) i]) frames
          (resolvedInfos k w frames info)).flatten) } := by
  intro frames
  induction frames with
  | nil =>
    intro fuel ebp info m _ hc _
    have : ebp = 0 := hc
    subst this
    rw [backtraceLoop.eq_def]; simp [resolvedInfos]
  | cons f fs ih =>
    intro fuel ebp info m hw hc hf
    obtain ⟨rfl, hne, -, hrest⟩ := hc
    obtain ⟨fuel, rfl⟩ : ∃ n, fuel = n + 1 := ⟨fuel - 1, by simp at hf; omega⟩
    rw [backtraceLoop_step k fuel ebp info m hne]
    have hrun := ih fuel (load32 m ebp)
      (k.debuginfo_eip (load32 m ((ebp + 4) % 2 ^ 32)) info).2
      { m with out := (m.out ++ (frameLine m ebp ++
          [infoLine (load32 m ((ebp + 4) % 2 ^ 32))
            (k.debuginfo_eip (load32 m ((ebp + 4) % 2 ^ 32)) info).2])) }
      hw (by rw [load32_congr hw]; exact hrest) (by simp at hf; omega)
    rw [hrun]
    simp [resolvedInfos, frameLine_congr hw, load32_congr hw]

theorem mon_backtrace_resolved (k : Kernel) (fuel argc : Nat) (argv : Argv)
    (tf : Option Trapframe) (m : Machine) (frames : List Nat)
    (hchain : IsChain m (read_ebp m) frames) (hfuel : frames.length ≤ fuel) :
    mon_backtrace k fuel argc argv tf m = Except.ok ⟨0, tf, { m with out := (m.out ++
      "Stack backtrace:\n" :: (List.zipWith (fun f i => frameLine m f ++
        [infoLine (load32 m ((f + 4) % 2 ^ 32)) i]) frames
        (resolvedInfos k m frames m.info)).flatten) }⟩ := by
  have hrun := backtraceLoop_chain_resolved k m frames fuel (read_ebp m) m.info
    (cprintf "Stack backtrace:\n" m) rfl hchain hfuel
  simp only [mon_backtrace, hrun]
  simp [cprintf]

/-! # Claims -/

/-- C1: on a line made only of whitespace (tab, carriage return, newline,
space; the empty line included) the tokenizer of `runcmd` ends with
`argc = 0`, and `runcmd` returns 0 with the console, the machine and the trap
frame untouched, whatever handlers the command table holds: none is called. -/
theorem runcmd_blank_line (cmds : List Command) (ws tail : List Nat) (tf : Option Trapframe)
    (m : Machine) (hws : ∀ c ∈ ws, c = 9 ∨ c = 13 ∨ c = 10 ∨ c = 32) :
    (∃ r, tokenize (ws ++ 0 :: tail) = Except.ok r ∧ r.overflow = false ∧ r.argc = 0) ∧
      runcmd cmds (ws ++ 0 :: tail) tf m = Except.ok ⟨0, tf, m⟩ := by
  have hsp : ∀ c ∈ ws, isSpace c = true := fun c hc => (isSpace_iff c).2 (hws c hc)
  have hW : wordsOf ws = [] := by
    have := wordsOf_ws [] ws hsp
    rwa [List.append_nil, wordsOf_nil] at this
  obtain ⟨r, hr, hov, hac, -, -, -⟩ :=
    tokenize_spec ws tail (fun c hc => isSpace_ne_zero (hsp c hc))
  rw [hW] at hov hac
  have hov' : r.overflow = false := by simpa using hov
  have hac' : r.argc = 0 := by simpa using hac
  refine ⟨⟨r, hr, hov', hac'⟩, ?_⟩
  simp [runcmd, hr, hov', hac']

/-- Witness of C1: the line " \t\n" run against the command table. -/
theorem runcmd_blank_line_witness :
    (∀ c ∈ [32, 9, 10], c = 9 ∨ c = 13 ∨ c = 10 ∨ c = 32) ∧
    ((∃ r, tokenize ([32, 9, 10] ++ 0 :: []) = Except.ok r ∧ r.overflow = false ∧ r.argc = 0) ∧
      runcmd (commands sampleKernel 8) ([32, 9, 10] ++ 0 :: []) (some sampleFrame) sampleMachine
        = Except.ok ⟨0, some sampleFrame, sampleMachine⟩) :=
  ⟨by decide, runcmd_blank_line (commands sampleKernel 8) [32, 9, 10] [] (some sampleFrame)
    sampleMachine (by decide)⟩

/-- C2: on a NUL-terminated line with at most `MAXARGS - 1 = 15` words the
tokenizer of `runcmd` ends, without overflow, with `argc` the number of words
and `argv[0..argc-1]` pointing, in order, to the maximal runs of
non-whitespace characters of the line: `argv[i]` read as a C string is the
`i`-th word, which is non-empty, free of NUL, tab, CR, LF and space, lies at
its original place in the buffer, and is followed there by a `0`;
`argv[argc]` is the null pointer. -/
theorem tokenize_words (line tail : List Nat) (h0 : ∀ c ∈ line, c ≠ 0)
    (hn : (wordsOf line).length ≤ MAXARGS - 1) :
    ∃ r, tokenize (line ++ 0 :: tail) = Except.ok r ∧ r.overflow = false ∧
      r.argc = (wordsOf line).length ∧
      r.argv[r.argc]? = some Ptr.null ∧
      ∀ i, i < r.argc → ∃ q w,
        (wordsOf line)[i]? = some w ∧ r.argv[i]? = some (Ptr.at q) ∧
        argStr ⟨r.mem, r.argv⟩ i = Except.ok w ∧
        w ≠ [] ∧ (∀ c ∈ w, c ≠ 0 ∧ c ≠ 9 ∧ c ≠ 13 ∧ c ≠ 10 ∧ c ≠ 32) ∧
        (line.drop q).take w.length = w ∧
        r.mem[q + w.length]? = some 0 := by
  have hn' : (wordsOf line).length ≤ 15 := hn
  obtain ⟨r, hr, hov, hac, -, hnull, htoks⟩ := tokenize_spec line tail h0
  have hov' : r.overflow = false := by rw [hov]; simpa using hn'
  have hac' : r.argc = (wordsOf line).length := by rw [hac]; omega
  refine ⟨r, hr, hov', hac', hnull hov', ?_⟩
  intro i hi
  have hi' : i < (wordsOf line).length := by omega
  obtain ⟨q, hq, hplace, hterm⟩ :=
    htoks i (wordsOf line)[i] (List.getElem?_eq_getElem hi') (by omega)
  have hmem := wordsOf_mem (List.getElem_mem hi')
  have hnz : ∀ c ∈ (wordsOf line)[i], c ≠ 0 := fun c hc => h0 c (hmem.2 c hc).2
  refine ⟨q, (wordsOf line)[i], List.getElem?_eq_getElem hi', hq,
    argStr_of_take _ _ _ _ _ hnz hq hterm, hmem.1, ?_, hplace, getElem?_of_take _ _ _ hterm⟩
  intro c hc
  exact ⟨hnz c hc, (isSpace_false_iff c).1 (hmem.2 c hc).1⟩

/-- Witness of C2: the line "  help me\tplease \n". -/
theorem tokenize_words_witness :
    (∀ c ∈ bytes "  help me\tplease \n", c ≠ 0) ∧
    (wordsOf (bytes "  help me\tplease \n")).length ≤ MAXARGS - 1 ∧
    ∃ r, tokenize (bytes "  help me\tplease \n" ++ 0 :: [7]) = Except.ok r ∧ r.overflow = false ∧
      r.argc = (wordsOf (bytes "  help me\tplease \n")).length ∧
      r.argv[r.argc]? = some Ptr.null ∧
      ∀ i, i < r.argc → ∃ q w,
        (wordsOf (bytes "  help me\tplease \n"))[i]? = some w ∧ r.argv[i]? = some (Ptr.at q) ∧
        argStr ⟨r.mem, r.argv⟩ i = Except.ok w ∧
        w ≠ [] ∧ (∀ c ∈ w, c ≠ 0 ∧ c ≠ 9 ∧ c ≠ 13 ∧ c ≠ 10 ∧ c ≠ 32) ∧
        ((bytes "  help me\tplease \n").drop q).take w.length = w ∧
        r.mem[q + w.length]? = some 0 :=
  ⟨by decide, by decide, tokenize_words (bytes "  help me\tplease \n") [7] (by decide) (by decide)⟩

/-- C3: on a NUL-terminated line with more than `MAXARGS = 16` words the
tokenizer of `runcmd` stops in its overflow branch with exactly
`MAXARGS - 1 = 15` tokens stored, `argv[0..14]` pointing in order to the first
15 words of the line, and `runcmd` writes the message "Too many arguments
(max 16)" to the console exactly once and returns 0, the trap frame and the
rest of the machine untouched. -/
theorem tokenize_overflow (cmds : List Command) (line tail : List Nat) (tf : Option Trapframe)
    (m : Machine) (h0 : ∀ c ∈ line, c ≠ 0) (hn : MAXARGS < (wordsOf line).length) :
    (∃ r, tokenize (line ++ 0 :: tail) = Except.ok r ∧ r.overflow = true ∧
      r.argc = MAXARGS - 1 ∧
      ∀ i, i < MAXARGS - 1 → ∃ q w,
        (wordsOf line)[i]? = some w ∧ r.argv[i]? = some (Ptr.at q) ∧
        argStr ⟨r.mem, r.argv⟩ i = Except.ok w) ∧
    runcmd cmds (line ++ 0 :: tail) tf m
      = Except.ok ⟨0, tf, { m with out := m.out ++ ["Too many arguments (max 16)\n"] }⟩ := by
  have hn' : 16 < (wordsOf line).length := hn
  obtain ⟨r, hr, hov, hac, -, -, htoks⟩ := tokenize_spec line tail h0
  have hov' : r.overflow = true := by rw [hov]; simp; omega
  have hac' : r.argc = 15 := by rw [hac]; omega
  refine ⟨⟨r, hr, hov', hac', ?_⟩, ?_⟩
  · intro i hi
    have hi15 : i < 15 := hi
    have hi' : i < (wordsOf line).length := by omega
    obtain ⟨q, hq, -, hterm⟩ :=
      htoks i (wordsOf line)[i] (List.getElem?_eq_getElem hi') hi15
    have hmem := wordsOf_mem (List.getElem_mem hi')
    exact ⟨q, (wordsOf line)[i], List.getElem?_eq_getElem hi', hq,
      argStr_of_take _ _ _ _ _ (fun c hc => h0 c (hmem.2 c hc).2) hq hterm⟩
  · have hfmt : fmt_d (MAXARGS : Nat) = "16" := by decide
    simp only [runcmd, hr, hov', if_true, hfmt, cprintf]
    rfl

/-- Witness of C3: a line of seventeen one-letter words. -/
theorem tokenize_overflow_witness :
    (∀ c ∈ bytes "a b c d e f g h i j k l m n o p q", c ≠ 0) ∧
    MAXARGS < (wordsOf (bytes "a b c d e f g h i j k l m n o p q")).length ∧
    ((∃ r, tokenize (bytes "a b c d e f g h i j k l m n o p q" ++ 0 :: []) = Except.ok r ∧
      r.overflow = true ∧ r.argc = MAXARGS - 1 ∧
      ∀ i, i < MAXARGS - 1 → ∃ q w,
        (wordsOf (bytes "a b c d e f g h i j k l m n o p q"))[i]? = some w ∧
        r.argv[i]? = some (Ptr.at q) ∧
        argStr ⟨r.mem, r.argv⟩ i = Except.ok w) ∧
    runcmd (commands sampleKernel 8) (bytes "a b c d e f g h i j k l m n o p q" ++ 0 :: []) none
        sampleMachine
      = Except.ok ⟨0, none,
          { sampleMachine with out := sampleMachine.out ++ ["Too many arguments (max 16)\n"] }⟩) :=
  ⟨by decide, by decide,
    tokenize_overflow (commands sampleKernel 8) (bytes "a b c d e f g h i j k l m n o p q") []
      none sampleMachine (by decide) (by decide)⟩

/-- C4 (amended): for every NUL-terminated line with at most 15 words, and
whatever handlers are plugged under the five registered names: when the first
word equals the name of the `i`-th descriptor, the outcome of `runcmd` is that
of one call of the `i`-th handler, so that distinct names route to their own
handlers only; when the first word equals no registered name, `runcmd` writes
the unknown-command message, calls no handler and returns 0. -/
theorem runcmd_routes (cmds : List Command)
    (hnames : cmds.map (fun c => c.name) = commandText.map Prod.fst)
    (line tail : List Nat) (tf : Option Trapframe) (m : Machine) (h0 : ∀ c ∈ line, c ≠ 0)
    (w0 : List Nat) (ws : List (List Nat)) (hW : wordsOf line = w0 :: ws)
    (hn : (wordsOf line).length ≤ MAXARGS - 1) :
    ∃ r, tokenize (line ++ 0 :: tail) = Except.ok r ∧
      (∀ (i : Nat) (hi : i < cmds.length), w0 = bytes (cmds[i]).name →
        runcmd cmds (line ++ 0 :: tail) tf m = (cmds[i]).func r.argc ⟨r.mem, r.argv⟩ tf m) ∧
      ((∀ c ∈ cmds, w0 ≠ bytes c.name) →
        runcmd cmds (line ++ 0 :: tail) tf m = Except.ok ⟨0, tf,
          { m with out := m.out ++ ["Unknown command \x27" ++ text w0 ++ "\x27\n"] }⟩) := by
  obtain ⟨r, hr, -, -, -, -, hrun⟩ :=
    runcmd_spec cmds (registry_names_nonzero cmds hnames) line tail tf m h0 w0 ws hW hn
  refine ⟨r, hr, ?_, ?_⟩
  · intro i hi hw
    rw [hrun, hw, lookup_nodup cmds (registry_names_nodup cmds hnames) i hi]
  · intro hno
    rw [hrun, lookup_none cmds w0 hno]
    rfl

/-- Witness of C4 (amended): the line "si now" against the command table. -/
theorem runcmd_routes_witness :
    (commands sampleKernel 8).map (fun c => c.name) = commandText.map Prod.fst ∧
    (∀ c ∈ bytes "si now", c ≠ 0) ∧
    wordsOf (bytes "si now") = bytes "si" :: [bytes "now"] ∧
    (wordsOf (bytes "si now")).length ≤ MAXARGS - 1 ∧
    ∃ r, tokenize (bytes "si now" ++ 0 :: []) = Except.ok r ∧
      (∀ (i : Nat) (hi : i < (commands sampleKernel 8).length),
        bytes "si" = bytes ((commands sampleKernel 8)[i]).name →
        runcmd (commands sampleKernel 8) (bytes "si now" ++ 0 :: []) (some sampleFrame)
          sampleMachine
        = ((commands sampleKernel 8)[i]).func r.argc ⟨r.mem, r.argv⟩ (some sampleFrame)
          sampleMachine) ∧
      ((∀ c ∈ commands sampleKernel 8, bytes "si" ≠ bytes c.name) →
        runcmd (commands sampleKernel 8) (bytes "si now" ++ 0 :: []) (some sampleFrame)
          sampleMachine
        = Except.ok ⟨0, some sampleFrame, { sampleMachine with
            out := sampleMachine.out ++ ["Unknown command \x27" ++ text (bytes "si") ++ "\x27\n"] }⟩) :=
  ⟨rfl, by decide, by decide, by decide,
    runcmd_routes (commands sampleKernel 8) rfl (bytes "si now") [] (some sampleFrame)
      sampleMachine (by decide) (bytes "si") [bytes "now"] (by decide) (by decide)⟩

/-- Counterexample to C4 as stated: the first word of a line of sixteen words
is the registered name "help", yet `runcmd` writes only the overflow message,
which is not what the handler `mon_help` writes: the handler is not called. -/
theorem runcmd_routes_counterexample :
    (wordsOf (bytes "help a b c d e f g h i j k l m n o"))[0]? = some (bytes "help") ∧
    (match runcmd (commands sampleKernel 8)
        (bytes "help a b c d e f g h i j k l m n o" ++ [0]) none sampleMachine with
      | Except.ok o => some (o.status, o.m.out)
      | Except.error _ => none) = some (0, ["Too many arguments (max 16)\n"]) ∧
    (match mon_help 16 ⟨[], []⟩ none sampleMachine with
      | Except.ok o => some (o.status, o.m.out)
      | Except.error _ => none) ≠ some (0, ["Too many arguments (max 16)\n"]) := by
  decide

/-- C5: when memory holds a frame-pointer chain `frames` of length `N ≥ 0`
starting at the current frame pointer, `mon_backtrace` (with a step budget of
at least `N`) returns 0 and writes, after the heading, exactly `N` blocks in
the order of the chain, innermost first: the `i`-th block is the call-frame
line of the `i`-th frame of the chain, with that frame's address as frame
pointer and the word stored at that address + 4 as return address, followed by
one line of the resolver. -/
theorem mon_backtrace_chain (k : Kernel) (fuel argc : Nat) (argv : Argv)
    (tf : Option Trapframe) (m : Machine) (frames : List Nat)
    (hchain : IsChain m (read_ebp m) frames) (hfuel : frames.length ≤ fuel) :
    ∃ infoLines : List String, infoLines.length = frames.length ∧
      mon_backtrace k fuel argc argv tf m = Except.ok ⟨0, tf, { m with out := (m.out ++
        "Stack backtrace:\n" ::
          (List.zipWith (fun f l => frameLine m f ++ [l]) frames infoLines).flatten) }⟩ := by
  obtain ⟨ls, hlen, hrun⟩ := backtraceLoop_chain k m frames fuel (read_ebp m) m.info
    (cprintf "Stack backtrace:\n" m) rfl hchain hfuel
  refine ⟨ls, hlen, ?_⟩
  simp only [mon_backtrace, hrun]
  simp [cprintf]

/-- Witness of C5: the chain of the two frames `0x100` and `0x200`. -/
theorem mon_backtrace_chain_witness :
    IsChain sampleMachine (read_ebp sampleMachine) [0x100, 0x200] ∧
    [0x100, 0x200].length ≤ 8 ∧
    ∃ infoLines : List String, infoLines.length = [0x100, 0x200].length ∧
      mon_backtrace sampleKernel 8 1 ⟨[], []⟩ none sampleMachine
        = Except.ok ⟨0, none, { sampleMachine with out := (sampleMachine.out ++
          "Stack backtrace:\n" ::
            (List.zipWith (fun f l => frameLine sampleMachine f ++ [l]) [0x100, 0x200]
              infoLines).flatten) }⟩ :=
  ⟨⟨rfl, by decide, by decide, rfl, by decide, by decide, rfl⟩, by decide,
    mon_backtrace_chain sampleKernel 8 1 ⟨[], []⟩ none sampleMachine [0x100, 0x200]
      ⟨rfl, by decide, by decide, rfl, by decide, by decide, rfl⟩ (by decide)⟩

/-- C6 (amended): on a cyclic chain, the current frame being non-null and its
saved frame pointer being its own address, `mon_backtrace` has no iteration
bound and reports no bound-exceeded condition: whatever the step budget, the
loop has not returned when the budget is used up, so it runs forever. -/
theorem mon_backtrace_cyclic (k : Kernel) (fuel argc : Nat) (argv : Argv)
    (tf : Option Trapframe) (m : Machine) (hne : read_ebp m ≠ 0)
    (hself : load32 m (read_ebp m) = read_ebp m) :
    mon_backtrace k fuel argc argv tf m = Except.error Fault.fuel := by
  have := backtraceLoop_cyclic k (read_ebp m) hne fuel m.info (cprintf "Stack backtrace:\n" m)
    ((@load32_congr (cprintf "Stack backtrace:\n" m) m rfl _).trans hself)
  simp only [mon_backtrace, this]

/-- Witness of C6 (amended): the frame at `0x100` that points to itself. -/
theorem mon_backtrace_cyclic_witness :
    read_ebp cyclicMachine ≠ 0 ∧
    load32 cyclicMachine (read_ebp cyclicMachine) = read_ebp cyclicMachine ∧
    mon_backtrace sampleKernel 1000 1 ⟨[], []⟩ none cyclicMachine = Except.error Fault.fuel :=
  ⟨by decide, by decide,
    mon_backtrace_cyclic sampleKernel 1000 1 ⟨[], []⟩ none cyclicMachine (by decide) (by decide)⟩

/-- Counterexample to C6 as stated: on the frame at `0x100` that points to
itself there is no number of iterations within which `mon_backtrace`
returns. -/
theorem mon_backtrace_cyclic_counterexample :
    ¬ ∃ (fuel : Nat) (o : Outcome),
      mon_backtrace sampleKernel fuel 1 ⟨[], []⟩ none cyclicMachine = Except.ok o := by
  rintro ⟨fuel, o, h⟩
  have := backtraceLoop_cyclic sampleKernel (read_ebp cyclicMachine) (by decide) fuel
    cyclicMachine.info (cprintf "Stack backtrace:\n" cyclicMachine) (by decide)
  simp only [mon_backtrace, this] at h
  cases h

/-- C7: with a trap frame present `mon_si` returns -1, leaves the machine
untouched, and hands back a frame equal to the given one in every field but
`tf_eflags`, whose new value is the old one or-ed with `FL_TF`: bit 8 is set
and every other bit is as before. -/
theorem mon_si_sets_trap_flag (argc : Nat) (argv : Argv) (t : Trapframe) (m : Machine) :
    ∃ t1 : Trapframe, mon_si argc argv (some t) m = Except.ok ⟨-1, some t1, m⟩ ∧
      t1.tf_regs = t.tf_regs ∧ t1.tf_es = t.tf_es ∧ t1.tf_ds = t.tf_ds ∧
      t1.tf_trapno = t.tf_trapno ∧ t1.tf_err = t.tf_err ∧ t1.tf_eip = t.tf_eip ∧
      t1.tf_cs = t.tf_cs ∧ t1.tf_esp = t.tf_esp ∧ t1.tf_ss = t.tf_ss ∧
      t1.tf_eflags = t.tf_eflags ||| FL_TF ∧
      t1.tf_eflags.testBit 8 = true ∧
      ∀ i, i ≠ 8 → t1.tf_eflags.testBit i = t.tf_eflags.testBit i := by
  refine ⟨{ t with tf_eflags := t.tf_eflags ||| FL_TF }, rfl, rfl, rfl, rfl, rfl, rfl, rfl, rfl,
    rfl, rfl, rfl, ?_, ?_⟩
  · have h8 : FL_TF.testBit 8 = true := by decide
    simp only [Nat.testBit_or, h8, Bool.or_true]
  · intro i hi
    have hi8 : FL_TF.testBit i = false := by
      have h2 : FL_TF = 2 ^ 8 := by decide
      rw [h2, Nat.testBit_two_pow]
      simpa using Ne.symm hi
    simp only [Nat.testBit_or, hi8, Bool.or_false]

/-- C8: without a trap frame (`tf = NULL`) `mon_si` returns 0 and does nothing
but write the message "No trap frame available." to the console: no frame is
handed back and memory and registers are as before. -/
theorem mon_si_no_frame (argc : Nat) (argv : Argv) (m : Machine) :
    mon_si argc argv none m
      = Except.ok ⟨0, none, { m with out := m.out ++ ["No trap frame available.\n"] }⟩ := by
  rfl

/-- C9 (amended): when the command run on a line returns the status `s`, the
console loop is left exactly when `s < 0`: on a negative status, -1 or any
other, the loop ends; on every other status it goes on with the next call of
`readline`, which prints the prompt again. -/
theorem monitorLoop_exit_iff (cmds : List Command) (buf : List Nat)
    (rest : List (Option (List Nat))) (n : Nat) (tf : Option Trapframe) (m : Machine)
    (o : Outcome) (h : runcmd cmds buf tf (cprintf "K> " m) = Except.ok o) :
    (o.status < 0 → monitorLoop cmds (some buf :: rest) n tf m = Except.ok ⟨true, n + 1, o.tf, o.m⟩) ∧
    (¬ o.status < 0 →
      monitorLoop cmds (some buf :: rest) n tf m = monitorLoop cmds rest (n + 1) o.tf o.m) ∧
    (¬ o.status < 0 → monitorLoop cmds (some buf :: none :: rest) n tf m
      = monitorLoop cmds rest (n + 2) o.tf { o.m with out := o.m.out ++ ["K> "] }) ∧
    (∀ s, monitorLoop cmds [some buf] n tf m = Except.ok s → (s.exited = true ↔ o.status < 0)) := by
  refine ⟨?_, ?_, ?_, ?_⟩
  · intro hs; simp [monitorLoop, h, hs]
  · intro hs; simp [monitorLoop, h, hs]
  · intro hs; simp only [monitorLoop, h, hs, if_false]; rfl
  · intro s hrun
    by_cases hs : o.status < 0
    · simp [monitorLoop, h, hs] at hrun
      simp [← hrun, hs]
    · simp [monitorLoop, h, hs] at hrun
      simp [← hrun, hs]

/-- Witness of C9 (amended): the line "si" with a trap frame present. -/
theorem monitorLoop_exit_iff_witness :
    runcmd (commands sampleKernel 8) (bytes "si" ++ [0]) (some sampleFrame)
        (cprintf "K> " sampleMachine)
      = Except.ok ⟨-1, some { sampleFrame with tf_eflags := 0x302 },
          cprintf "K> " sampleMachine⟩ ∧
    (((-1 : Int) < 0 → monitorLoop (commands sampleKernel 8) (some (bytes "si" ++ [0]) :: []) 0
        (some sampleFrame) sampleMachine
      = Except.ok ⟨true, 0 + 1, some { sampleFrame with tf_eflags := 0x302 },
          cprintf "K> " sampleMachine⟩) ∧
    (¬ (-1 : Int) < 0 → monitorLoop (commands sampleKernel 8) (some (bytes "si" ++ [0]) :: []) 0
        (some sampleFrame) sampleMachine
      = monitorLoop (commands sampleKernel 8) [] (0 + 1)
          (some { sampleFrame with tf_eflags := 0x302 }) (cprintf "K> " sampleMachine)) ∧
    (¬ (-1 : Int) < 0 →
      monitorLoop (commands sampleKernel 8) (some (bytes "si" ++ [0]) :: none :: []) 0
        (some sampleFrame) sampleMachine
      = monitorLoop (commands sampleKernel 8) [] (0 + 2)
          (some { sampleFrame with tf_eflags := 0x302 })
          { cprintf "K> " sampleMachine with out := (cprintf "K> " sampleMachine).out ++ ["K> "] }) ∧
    (∀ s, monitorLoop (commands sampleKernel 8) [some (bytes "si" ++ [0])] 0
        (some sampleFrame) sampleMachine = Except.ok s → (s.exited = true ↔ (-1 : Int) < 0))) :=
  ⟨by rfl, monitorLoop_exit_iff (commands sampleKernel 8) (bytes "si" ++ [0]) [] 0
    (some sampleFrame) sampleMachine
    ⟨-1, some { sampleFrame with tf_eflags := 0x302 }, cprintf "K> " sampleMachine⟩ (by rfl)⟩

/-- Counterexample to C9 as stated: a handler returns the status -2, which is
not -1, and the console loop is left all the same. -/
theorem monitorLoop_exit_counterexample :
    (match runcmd sampleTable (bytes "halt" ++ [0]) none (cprintf "K> " sampleMachine) with
      | Except.ok o => some o.status
      | Except.error _ => none) = some (-2) ∧
    (-2 : Int) ≠ -1 ∧
    (match monitorLoop sampleTable [some (bytes "halt" ++ [0])] 0 none sampleMachine with
      | Except.ok s => some s.exited
      | Except.error _ => none) = some true := by
  decide

/-- C10: for every NUL-terminated line with at most 15 words whose first word
names a descriptor, and whatever handlers are plugged under the five
registered names, `runcmd` ends as one call of the matched handler with
`argc` the number of words, `argv` the array whose entries `0..argc-1` read as
the words of the line in order and whose entry `argc` is null, and the trap
frame reference `tf` it was given (present or `NULL`); the outcome of
`runcmd`, its returned integer included, is the outcome of that call. -/
theorem runcmd_calls_handler (cmds : List Command)
    (hnames : cmds.map (fun c => c.name) = commandText.map Prod.fst)
    (line tail : List Nat) (tf : Option Trapframe) (m : Machine) (h0 : ∀ c ∈ line, c ≠ 0)
    (w0 : List Nat) (ws : List (List Nat)) (hW : wordsOf line = w0 :: ws)
    (hn : (wordsOf line).length ≤ MAXARGS - 1)
    (c : Command) (hc : lookup cmds w0 = some c) :
    ∃ argv : Argv,
      (∀ i, i < (wordsOf line).length → ∃ w, (wordsOf line)[i]? = some w ∧
        argStr argv i = Except.ok w) ∧
      argv.slots[(wordsOf line).length]? = some Ptr.null ∧
      runcmd cmds (line ++ 0 :: tail) tf m = c.func (wordsOf line).length argv tf m ∧
      ∀ o, c.func (wordsOf line).length argv tf m = Except.ok o →
        ∃ o1, runcmd cmds (line ++ 0 :: tail) tf m = Except.ok o1 ∧ o1.status = o.status := by
  obtain ⟨r, -, -, hac, hnull, harg, hrun⟩ :=
    runcmd_spec cmds (registry_names_nonzero cmds hnames) line tail tf m h0 w0 ws hW hn
  rw [hc] at hrun
  simp only [hac] at hrun hnull harg
  refine ⟨⟨r.mem, r.argv⟩, harg, hnull, hrun, ?_⟩
  intro o ho
  exact ⟨o, by rw [hrun, ho], rfl⟩

/-- Witness of C10: the line "si 1 2" against the command table. -/
theorem runcmd_calls_handler_witness :
    (commands sampleKernel 8).map (fun c => c.name) = commandText.map Prod.fst ∧
    (∀ c ∈ bytes "si 1 2", c ≠ 0) ∧
    wordsOf (bytes "si 1 2") = bytes "si" :: [bytes "1", bytes "2"] ∧
    (wordsOf (bytes "si 1 2")).length ≤ MAXARGS - 1 ∧
    lookup (commands sampleKernel 8) (bytes "si")
      = some ⟨"si", "Run next instruction and trap back into monitor", mon_si⟩ ∧
    ∃ argv : Argv,
      (∀ i, i < (wordsOf (bytes "si 1 2")).length → ∃ w,
        (wordsOf (bytes "si 1 2"))[i]? = some w ∧ argStr argv i = Except.ok w) ∧
      argv.slots[(wordsOf (bytes "si 1 2")).length]? = some Ptr.null ∧
      runcmd (commands sampleKernel 8) (bytes "si 1 2" ++ 0 :: []) (some sampleFrame)
          sampleMachine
        = mon_si (wordsOf (bytes "si 1 2")).length argv (some sampleFrame) sampleMachine ∧
      ∀ o, mon_si (wordsOf (bytes "si 1 2")).length argv (some sampleFrame) sampleMachine
          = Except.ok o →
        ∃ o1, runcmd (commands sampleKernel 8) (bytes "si 1 2" ++ 0 :: []) (some sampleFrame)
          sampleMachine = Except.ok o1 ∧ o1.status = o.status :=
  ⟨rfl, by decide, by decide, by decide, rfl,
    runcmd_calls_handler (commands sampleKernel 8) rfl (bytes "si 1 2") [] (some sampleFrame)
      sampleMachine (by decide) (bytes "si") [bytes "1", bytes "2"] (by decide) (by decide)
      ⟨"si", "Run next instruction and trap back into monitor", mon_si⟩ rfl⟩

/-- C11: with the table `commands`, whenever `runcmd` returns on a
NUL-terminated line, an absent trap frame stays absent and a present one comes
back equal in every field other than `tf_eflags`; `tf_eflags` is either
unchanged or, on a line of at most 15 words that starts with "si", or-ed with
`FL_TF`; on every line that does not start with "si" (help, kerninfo,
backtrace, show, unknown commands, empty lines) and on every overflowing line
the whole frame is as before.  `runcmd` does return on every line that
overflows or does not start with "backtrace". -/
theorem runcmd_frame_effect (k : Kernel) (fuel : Nat) (line tail : List Nat)
    (tf : Option Trapframe) (m : Machine) (h0 : ∀ c ∈ line, c ≠ 0) :
    (∀ o, runcmd (commands k fuel) (line ++ 0 :: tail) tf m = Except.ok o →
      (tf = none → o.tf = none) ∧
      (∀ t, tf = some t → ∃ t1, o.tf = some t1 ∧
        t1.tf_regs = t.tf_regs ∧ t1.tf_es = t.tf_es ∧ t1.tf_ds = t.tf_ds ∧
        t1.tf_trapno = t.tf_trapno ∧ t1.tf_err = t.tf_err ∧ t1.tf_eip = t.tf_eip ∧
        t1.tf_cs = t.tf_cs ∧ t1.tf_esp = t.tf_esp ∧ t1.tf_ss = t.tf_ss ∧
        (t1.tf_eflags = t.tf_eflags ∨
          (t1.tf_eflags = t.tf_eflags ||| FL_TF ∧
            (wordsOf line).head? = some (bytes "si") ∧ (wordsOf line).length ≤ 15))) ∧
      ((wordsOf line).head? ≠ some (bytes "si") ∨ 15 < (wordsOf line).length → o.tf = tf)) ∧
    ((wordsOf line).head? ≠ some (bytes "backtrace") ∨ 15 < (wordsOf line).length →
      ∃ o, runcmd (commands k fuel) (line ++ 0 :: tail) tf m = Except.ok o) := by
  refine ⟨?_, ?_⟩
  · intro o ho
    rcases runcmd_outcome k fuel line tail tf m h0 o ho with
      ⟨-, htf, -⟩ | ⟨-, hlen, hsi, -, t, ht, hot⟩
    · refine ⟨fun h => by rw [htf, h], ?_, fun _ => htf⟩
      intro t ht
      exact ⟨t, by rw [htf, ht], rfl, rfl, rfl, rfl, rfl, rfl, rfl, rfl, rfl, Or.inl rfl⟩
    · refine ⟨fun h => (by rw [h] at ht; cases ht), ?_, ?_⟩
      · intro t1 ht1
        rw [ht] at ht1
        cases ht1
        exact ⟨_, hot, rfl, rfl, rfl, rfl, rfl, rfl, rfl, rfl, rfl, Or.inr ⟨rfl, hsi, hlen⟩⟩
      · rintro (h | h)
        · exact absurd hsi h
        · omega
  · intro h
    rcases h with h | h
    · exact runcmd_returns k fuel line tail tf m h0 (Or.inl h)
    · exact runcmd_returns k fuel line tail tf m h0 (Or.inr (Or.inl h))

/-- Witness of C11: the line "si" with a trap frame present. -/
theorem runcmd_frame_effect_witness :
    (∀ c ∈ bytes "si", c ≠ 0) ∧
    ((∀ o, runcmd (commands sampleKernel 8) (bytes "si" ++ 0 :: []) (some sampleFrame)
        sampleMachine = Except.ok o →
      (some sampleFrame = none → o.tf = none) ∧
      (∀ t, some sampleFrame = some t → ∃ t1, o.tf = some t1 ∧
        t1.tf_regs = t.tf_regs ∧ t1.tf_es = t.tf_es ∧ t1.tf_ds = t.tf_ds ∧
        t1.tf_trapno = t.tf_trapno ∧ t1.tf_err = t.tf_err ∧ t1.tf_eip = t.tf_eip ∧
        t1.tf_cs = t.tf_cs ∧ t1.tf_esp = t.tf_esp ∧ t1.tf_ss = t.tf_ss ∧
        (t1.tf_eflags = t.tf_eflags ∨
          (t1.tf_eflags = t.tf_eflags ||| FL_TF ∧
            (wordsOf (bytes "si")).head? = some (bytes "si") ∧
            (wordsOf (bytes "si")).length ≤ 15))) ∧
      ((wordsOf (bytes "si")).head? ≠ some (bytes "si") ∨ 15 < (wordsOf (bytes "si")).length →
        o.tf = some sampleFrame)) ∧
    ((wordsOf (bytes "si")).head? ≠ some (bytes "backtrace") ∨
        15 < (wordsOf (bytes "si")).length →
      ∃ o, runcmd (commands sampleKernel 8) (bytes "si" ++ 0 :: []) (some sampleFrame)
        sampleMachine = Except.ok o)) :=
  ⟨by decide, runcmd_frame_effect sampleKernel 8 (bytes "si") [] (some sampleFrame)
    sampleMachine (by decide)⟩

/-- C12: on the line "backtrace", over a frame-pointer chain covered by the
step budget, `runcmd` returns 0 and writes, after the heading, one block per
frame of the chain: the frame pointer and the return address, then the five
argument words, which are, in order, the memory words at frame+8, frame+12,
frame+16, frame+20 and frame+24, each written by " %08x ", then the end of
line and the line of the resolver.  In particular, over a chain of depth 3
whose frames each hold the argument words 1, 2, 3, 4, 5, three frame lines are
written, each listing after "args" the fields 00000001 00000002 00000003
00000004 00000005 (every field with a space on either side). -/
theorem backtrace_argument_words (k : Kernel) (fuel : Nat) (tail : List Nat)
    (tf : Option Trapframe) (m : Machine) (frames : List Nat)
    (hchain : IsChain m (read_ebp m) frames) (hfuel : frames.length ≤ fuel) :
    (∃ infoLines : List String, infoLines.length = frames.length ∧
      runcmd (commands k fuel) (bytes "backtrace" ++ 0 :: tail) tf m
        = Except.ok ⟨0, tf, { m with out := (m.out ++ "Stack backtrace:\n" ::
          (List.zipWith (fun f l =>
            [ "ebp " ++ fmt_x f ++ " eip " ++ fmt_x (load32 m ((f + 4) % 2 ^ 32)) ++ " args",
              " " ++ fmt_08x (load32 m ((f + 8) % 2 ^ 32)) ++ " ",
              " " ++ fmt_08x (load32 m ((f + 12) % 2 ^ 32)) ++ " ",
              " " ++ fmt_08x (load32 m ((f + 16) % 2 ^ 32)) ++ " ",
              " " ++ fmt_08x (load32 m ((f + 20) % 2 ^ 32)) ++ " ",
              " " ++ fmt_08x (load32 m ((f + 24) % 2 ^ 32)) ++ " ",
              "\n", l ]) frames infoLines).flatten) }⟩) ∧
    (frames.length = 3 →
      (∀ f ∈ frames, load32 m ((f + 8) % 2 ^ 32) = 1 ∧ load32 m ((f + 12) % 2 ^ 32) = 2 ∧
        load32 m ((f + 16) % 2 ^ 32) = 3 ∧ load32 m ((f + 20) % 2 ^ 32) = 4 ∧
        load32 m ((f + 24) % 2 ^ 32) = 5) →
      ∃ infoLines : List String, infoLines.length = 3 ∧
        runcmd (commands k fuel) (bytes "backtrace" ++ 0 :: tail) tf m
          = Except.ok ⟨0, tf, { m with out := (m.out ++ "Stack backtrace:\n" ::
            (List.zipWith (fun f l =>
              [ "ebp " ++ fmt_x f ++ " eip " ++ fmt_x (load32 m ((f + 4) % 2 ^ 32)) ++ " args",
                " 00000001 ", " 00000002 ", " 00000003 ", " 00000004 ", " 00000005 ",
                "\n", l ]) frames infoLines).flatten) }⟩) ∧
    wordsOf (bytes (" 00000001 " ++ " 00000002 " ++ " 00000003 " ++ " 00000004 " ++
        " 00000005 "))
      = [bytes "00000001", bytes "00000002", bytes "00000003", bytes "00000004",
          bytes "00000005"] := by
  obtain ⟨argv, hrun⟩ := runcmd_backtrace k fuel tail tf m
  obtain ⟨infos, hlen, hbt⟩ := mon_backtrace_spec k fuel 1 argv tf m frames hchain hfuel
  have hlines : (List.zipWith (fun f i => frameLine m f ++
        [infoLine (load32 m ((f + 4) % 2 ^ 32)) i]) frames infos)
      = List.zipWith (fun f l => frameLine m f ++ [l]) frames
          (List.zipWith (fun f i => infoLine (load32 m ((f + 4) % 2 ^ 32)) i) frames infos) := by
    clear hbt hchain hfuel
    induction frames generalizing infos with
    | nil => simp
    | cons f fs ih =>
      cases infos with
      | nil => simp
      | cons i is =>
        simp only [List.zipWith_cons_cons]
        rw [ih is (by simpa using hlen)]
  have hgen : runcmd (commands k fuel) (bytes "backtrace" ++ 0 :: tail) tf m
      = Except.ok ⟨0, tf, { m with out := (m.out ++ "Stack backtrace:\n" ::
          (List.zipWith (fun f l => frameLine m f ++ [l]) frames
            (List.zipWith (fun f i => infoLine (load32 m ((f + 4) % 2 ^ 32)) i)
              frames infos)).flatten) }⟩ := by
    rw [hrun, hbt, hlines]
  have hlen2 : (List.zipWith (fun f i => infoLine (load32 m ((f + 4) % 2 ^ 32)) i)
      frames infos).length = frames.length := by
    simp [hlen]
  refine ⟨⟨_, hlen2, ?_⟩, ?_, by decide⟩
  · have hz : List.zipWith (fun f l => frameLine m f ++ [l]) frames
          (List.zipWith (fun f i => infoLine (load32 m ((f + 4) % 2 ^ 32)) i) frames infos)
        = List.zipWith (fun f l =>
            [ "ebp " ++ fmt_x f ++ " eip " ++ fmt_x (load32 m ((f + 4) % 2 ^ 32)) ++ " args",
              " " ++ fmt_08x (load32 m ((f + 8) % 2 ^ 32)) ++ " ",
              " " ++ fmt_08x (load32 m ((f + 12) % 2 ^ 32)) ++ " ",
              " " ++ fmt_08x (load32 m ((f + 16) % 2 ^ 32)) ++ " ",
              " " ++ fmt_08x (load32 m ((f + 20) % 2 ^ 32)) ++ " ",
              " " ++ fmt_08x (load32 m ((f + 24) % 2 ^ 32)) ++ " ",
              "\n", l ]) frames
          (List.zipWith (fun f i => infoLine (load32 m ((f + 4) % 2 ^ 32)) i) frames infos) :=
      zipWith_congr_left _ _ frames _ (fun f _ l => by
        show frameLine m f ++ [l] = _
        rw [frameLine_explicit]; rfl)
    rw [hgen, hz]
  · intro h3 hargs
    refine ⟨_, by rw [hlen2, h3], ?_⟩
    have hz : List.zipWith (fun f l => frameLine m f ++ [l]) frames
          (List.zipWith (fun f i => infoLine (load32 m ((f + 4) % 2 ^ 32)) i) frames infos)
        = List.zipWith (fun f l =>
            [ "ebp " ++ fmt_x f ++ " eip " ++ fmt_x (load32 m ((f + 4) % 2 ^ 32)) ++ " args",
              " 00000001 ", " 00000002 ", " 00000003 ", " 00000004 ", " 00000005 ",
              "\n", l ]) frames
          (List.zipWith (fun f i => infoLine (load32 m ((f + 4) % 2 ^ 32)) i) frames infos) :=
      zipWith_congr_left _ _ frames _ (fun f hf l => by
        obtain ⟨a1, a2, a3, a4, a5⟩ := hargs f hf
        show frameLine m f ++ [l] = _
        rw [frameLine_explicit, a1, a2, a3, a4, a5]
        rfl)
    rw [hgen, hz]

/-- Witness of C12: the chain of the three frames `0x1000`, `0x2000` and
`0x3000`, each holding the argument words 1 to 5. -/
theorem backtrace_argument_words_witness :
    IsChain deepMachine (read_ebp deepMachine) [0x1000, 0x2000, 0x3000] ∧
    [0x1000, 0x2000, 0x3000].length ≤ 8 ∧
    ((∃ infoLines : List String, infoLines.length = [0x1000, 0x2000, 0x3000].length ∧
      runcmd (commands sampleKernel 8) (bytes "backtrace" ++ 0 :: []) none deepMachine
        = Except.ok ⟨0, none, { deepMachine with out := (deepMachine.out ++
          "Stack backtrace:\n" ::
          (List.zipWith (fun f l =>
            [ "ebp " ++ fmt_x f ++ " eip " ++ fmt_x (load32 deepMachine ((f + 4) % 2 ^ 32)) ++
                " args",
              " " ++ fmt_08x (load32 deepMachine ((f + 8) % 2 ^ 32)) ++ " ",
              " " ++ fmt_08x (load32 deepMachine ((f + 12) % 2 ^ 32)) ++ " ",
              " " ++ fmt_08x (load32 deepMachine ((f + 16) % 2 ^ 32)) ++ " ",
              " " ++ fmt_08x (load32 deepMachine ((f + 20) % 2 ^ 32)) ++ " ",
              " " ++ fmt_08x (load32 deepMachine ((f + 24) % 2 ^ 32)) ++ " ",
              "\n", l ]) [0x1000, 0x2000, 0x3000] infoLines).flatten) }⟩) ∧
    ([0x1000, 0x2000, 0x3000].length = 3 →
      (∀ f ∈ [0x1000, 0x2000, 0x3000],
        load32 deepMachine ((f + 8) % 2 ^ 32) = 1 ∧ load32 deepMachine ((f + 12) % 2 ^ 32) = 2 ∧
        load32 deepMachine ((f + 16) % 2 ^ 32) = 3 ∧ load32 deepMachine ((f + 20) % 2 ^ 32) = 4 ∧
        load32 deepMachine ((f + 24) % 2 ^ 32) = 5) →
      ∃ infoLines : List String, infoLines.length = 3 ∧
        runcmd (commands sampleKernel 8) (bytes "backtrace" ++ 0 :: []) none deepMachine
          = Except.ok ⟨0, none, { deepMachine with out := (deepMachine.out ++
            "Stack backtrace:\n" ::
            (List.zipWith (fun f l =>
              [ "ebp " ++ fmt_x f ++ " eip " ++
                  fmt_x (load32 deepMachine ((f + 4) % 2 ^ 32)) ++ " args",
                " 00000001 ", " 00000002 ", " 00000003 ", " 00000004 ", " 00000005 ",
                "\n", l ]) [0x1000, 0x2000, 0x3000] infoLines).flatten) }⟩) ∧
    wordsOf (bytes (" 00000001 " ++ " 00000002 " ++ " 00000003 " ++ " 00000004 " ++
        " 00000005 "))
      = [bytes "00000001", bytes "00000002", bytes "00000003", bytes "00000004",
          bytes "00000005"]) :=
  ⟨⟨rfl, by decide, by decide, rfl, by decide, by decide, rfl, by decide, by decide, rfl⟩,
    by decide,
    backtrace_argument_words sampleKernel 8 [] none deepMachine [0x1000, 0x2000, 0x3000]
      ⟨rfl, by decide, by decide, rfl, by decide, by decide, rfl, by decide, by decide, rfl⟩
      (by decide)⟩

/-- C13 (amended): over a terminating frame-pointer chain and for every
resolver, `mon_backtrace` unwinds the whole chain and writes for each frame
the same call-frame line, whatever the resolver returns; the value returned by
the resolver is ignored: the second line of every frame is formatted as
`file:line: function+offset` from the content the resolver, called with the
return address of that frame, left in `info`, after a failure as after a
success, so two resolvers that leave the same content give the same output
even when one reports success and the other failure. -/
theorem mon_backtrace_resolver (k1 k2 : Kernel) (fuel argc : Nat) (argv : Argv)
    (tf : Option Trapframe) (m : Machine) (frames : List Nat)
    (hchain : IsChain m (read_ebp m) frames) (hfuel : frames.length ≤ fuel) :
    mon_backtrace k1 fuel argc argv tf m = Except.ok ⟨0, tf, { m with out := (m.out ++
      "Stack backtrace:\n" :: (List.zipWith (fun f i => frameLine m f ++
        [infoLine (load32 m ((f + 4) % 2 ^ 32)) i]) frames
        (resolvedInfos k1 m frames m.info)).flatten) }⟩ ∧
    mon_backtrace k2 fuel argc argv tf m = Except.ok ⟨0, tf, { m with out := (m.out ++
      "Stack backtrace:\n" :: (List.zipWith (fun f i => frameLine m f ++
        [infoLine (load32 m ((f + 4) % 2 ^ 32)) i]) frames
        (resolvedInfos k2 m frames m.info)).flatten) }⟩ ∧
    (resolvedInfos k1 m frames m.info).length = frames.length ∧
    (resolvedInfos k2 m frames m.info).length = frames.length ∧
    ((∀ a i, (k1.debuginfo_eip a i).2 = (k2.debuginfo_eip a i).2) →
      mon_backtrace k1 fuel argc argv tf m = mon_backtrace k2 fuel argc argv tf m) := by
  refine ⟨mon_backtrace_resolved k1 fuel argc argv tf m frames hchain hfuel,
    mon_backtrace_resolved k2 fuel argc argv tf m frames hchain hfuel,
    resolvedInfos_length k1 m frames m.info, resolvedInfos_length k2 m frames m.info, ?_⟩
  intro h
  simp only [mon_backtrace, backtraceLoop_result_ignored k1 k2 h]

/-- Witness of C13 (amended): a resolver that succeeds and one that fails,
over the chain of the two frames `0x100` and `0x200`. -/
theorem mon_backtrace_resolver_witness :
    IsChain sampleMachine (read_ebp sampleMachine) [0x100, 0x200] ∧
    [0x100, 0x200].length ≤ 8 ∧
    (mon_backtrace sampleKernel 8 1 ⟨[], []⟩ none sampleMachine
      = Except.ok ⟨0, none, { sampleMachine with out := (sampleMachine.out ++
        "Stack backtrace:\n" :: (List.zipWith (fun f i => frameLine sampleMachine f ++
          [infoLine (load32 sampleMachine ((f + 4) % 2 ^ 32)) i]) [0x100, 0x200]
          (resolvedInfos sampleKernel sampleMachine [0x100, 0x200]
            sampleMachine.info)).flatten) }⟩ ∧
    mon_backtrace failingKernel 8 1 ⟨[], []⟩ none sampleMachine
      = Except.ok ⟨0, none, { sampleMachine with out := (sampleMachine.out ++
        "Stack backtrace:\n" :: (List.zipWith (fun f i => frameLine sampleMachine f ++
          [infoLine (load32 sampleMachine ((f + 4) % 2 ^ 32)) i]) [0x100, 0x200]
          (resolvedInfos failingKernel sampleMachine [0x100, 0x200]
            sampleMachine.info)).flatten) }⟩ ∧
    (resolvedInfos sampleKernel sampleMachine [0x100, 0x200] sampleMachine.info).length
      = [0x100, 0x200].length ∧
    (resolvedInfos failingKernel sampleMachine [0x100, 0x200] sampleMachine.info).length
      = [0x100, 0x200].length ∧
    ((∀ a i, (sampleKernel.debuginfo_eip a i).2 = (failingKernel.debuginfo_eip a i).2) →
      mon_backtrace sampleKernel 8 1 ⟨[], []⟩ none sampleMachine
        = mon_backtrace failingKernel 8 1 ⟨[], []⟩ none sampleMachine)) :=
  ⟨⟨rfl, by decide, by decide, rfl, by decide, by decide, rfl⟩, by decide,
    mon_backtrace_resolver sampleKernel failingKernel 8 1 ⟨[], []⟩ none sampleMachine
      [0x100, 0x200] ⟨rfl, by decide, by decide, rfl, by decide, by decide, rfl⟩ (by decide)⟩

/-- Counterexample to C13 as stated: the resolver reports failure (-1) for the
return address `0xf0100def` of the second frame, and `mon_backtrace` writes
for that frame "kern/init.c:24: i386_init+822", a line of the same form as the
line "kern/init.c:24: i386_init+3" of the first frame, whose lookup succeeded:
it is formatted from the content left in `info`, and nothing in it tells that
the address could not be resolved.  Likewise, with a resolver that reports
failure for every address the console is, line for line, the console written
with the resolver that reports success and leaves the same content. -/
theorem mon_backtrace_resolver_counterexample :
    (staleKernel.debuginfo_eip 0xf0100abc sampleMachine.info).1 = 0 ∧
    (staleKernel.debuginfo_eip 0xf0100def
      (staleKernel.debuginfo_eip 0xf0100abc sampleMachine.info).2).1 = -1 ∧
    (match mon_backtrace staleKernel 8 1 ⟨[], []⟩ none sampleMachine with
      | Except.ok o => (o.m.out[1]?, o.m.out[8]?, o.m.out[9]?, o.m.out[16]?, o.m.out.length)
      | Except.error _ => (none, none, none, none, 0)) =
    (some "ebp 100 eip f0100abc args", some "kern/init.c:24: i386_init+3\n",
      some "ebp 200 eip f0100def args", some "kern/init.c:24: i386_init+822\n", 17) ∧
    (failingKernel.debuginfo_eip 0xf0100abc sampleMachine.info).1 = -1 ∧
    (sampleKernel.debuginfo_eip 0xf0100abc sampleMachine.info).1 = 0 ∧
    (match mon_backtrace failingKernel 8 1 ⟨[], []⟩ none sampleMachine with
      | Except.ok o => some o.m.out
      | Except.error _ => none) =
    (match mon_backtrace sampleKernel 8 1 ⟨[], []⟩ none sampleMachine with
      | Except.ok o => some o.m.out
      | Except.error _ => none) := by
  decide

/-- C14: whatever `argc`, `argv` and the trap frame, present or absent,
`mon_help` returns 0, hands the trap frame back as given, and writes to the
console exactly one line "name - description" per descriptor of the table
`commands`, in the order of the table; the names listed are help, kerninfo,
backtrace, show and si, each once. -/
theorem mon_help_lists (k : Kernel) (fuel argc : Nat) (argv : Argv) (tf : Option Trapframe)
    (m : Machine) :
    mon_help argc argv tf m = Except.ok ⟨0, tf, { m with out := (m.out ++
      (commands k fuel).map (fun c => c.name ++ " - " ++ c.desc ++ "\n")) }⟩ ∧
    (commands k fuel).map (fun c => c.name) = ["help", "kerninfo", "backtrace", "show", "si"] ∧
    ((commands k fuel).map (fun c => c.name)).Nodup := by
  have e : (commands k fuel).map (fun c => c.name) = commandText.map Prod.fst := rfl
  refine ⟨?_, rfl, by rw [e]; decide⟩
  rw [mon_help_ok]
  rfl

/-- C15: an end-of-input result of `readline` (`NULL`) is no command for that
iteration of the console loop: whatever handlers the table holds, `runcmd` is
not called, the trap frame and the machine are untouched but for the prompt
written by `readline`, and the loop does not end but calls `readline` again;
this holds however many times in a row `readline` returns `NULL`. -/
theorem monitorLoop_end_of_input (cmds : List Command) (rest : List (Option (List Nat)))
    (j n : Nat) (tf : Option Trapframe) (m : Machine) :
    monitorLoop cmds (none :: rest) n tf m
      = monitorLoop cmds rest (n + 1) tf { m with out := m.out ++ ["K> "] } ∧
    monitorLoop cmds (List.replicate j none ++ rest) n tf m
      = monitorLoop cmds rest (n + j) tf { m with out := m.out ++ List.replicate j "K> " } ∧
    monitorLoop cmds (List.replicate j none) n tf m
      = Except.ok ⟨false, n + j, tf, { m with out := m.out ++ List.replicate j "K> " }⟩ := by
  refine ⟨rfl, monitorLoop_nulls cmds rest j n tf m, ?_⟩
  have := monitorLoop_nulls cmds [] j n tf m
  rw [List.append_nil] at this
  rw [this]
  rfl

/-- C16: the five names of the table `commands` are pairwise distinct; the
lookup of `runcmd` compares `argv[0]` with each name by `strcmp`, which is 0
exactly for equal strings, and calls the first descriptor that matches, so at
most one name matches a token; "HELP", "hel" and "helpx" match no name. -/
theorem commands_lookup_exact (k : Kernel) (fuel : Nat) :
    ((commands k fuel).map (fun c => c.name)).Nodup ∧
    (∀ s : List Nat, (∀ x ∈ s, x ≠ 0) → ∀ c ∈ commands k fuel,
      (strcmp s (bytes c.name) = 0 ↔ s = bytes c.name)) ∧
    (∀ s : List Nat, (∀ x ∈ s, x ≠ 0) → ∀ c1 ∈ commands k fuel, ∀ c2 ∈ commands k fuel,
      strcmp s (bytes c1.name) = 0 → strcmp s (bytes c2.name) = 0 → c1.name = c2.name) ∧
    (∀ (argc : Nat) (argv : Argv) (tf : Option Trapframe) (m : Machine) (s : List Nat),
      argStr argv 0 = Except.ok s → (∀ x ∈ s, x ≠ 0) →
      dispatch (commands k fuel) argc argv tf m =
        match (commands k fuel).find? (fun c => bytes c.name == s) with
        | some c => c.func argc argv tf m
        | none => Except.ok ⟨0, tf, cprintf ("Unknown command \x27" ++ text s ++ "\x27\n") m⟩) ∧
    (∀ c ∈ commands k fuel, strcmp (bytes "HELP") (bytes c.name) ≠ 0 ∧
      strcmp (bytes "hel") (bytes c.name) ≠ 0 ∧ strcmp (bytes "helpx") (bytes c.name) ≠ 0) ∧
    (∀ (tf : Option Trapframe) (m : Machine),
      runcmd (commands k fuel) (bytes "HELP" ++ [0]) tf m
        = Except.ok ⟨0, tf, { m with out := m.out ++ ["Unknown command \x27HELP\x27\n"] }⟩) := by
  have hnz := registry_names_nonzero (commands k fuel) rfl
  have hiff : ∀ s : List Nat, (∀ x ∈ s, x ≠ 0) → ∀ c ∈ commands k fuel,
      (strcmp s (bytes c.name) = 0 ↔ s = bytes c.name) :=
    fun s hs c hc => strcmp_eq_zero_iff s (bytes c.name) hs (hnz c hc)
  have e : (commands k fuel).map (fun c => c.name) = commandText.map Prod.fst := rfl
  refine ⟨by rw [e]; decide, hiff, ?_, ?_, ?_, ?_⟩
  · intro s hs c1 hc1 c2 hc2 h1 h2
    have e1 := (hiff s hs c1 hc1).1 h1
    have e2 := (hiff s hs c2 hc2).1 h2
    have hinj : ∀ a ∈ (commands k fuel).map (fun c => c.name),
        ∀ b ∈ (commands k fuel).map (fun c => c.name), bytes a = bytes b → a = b := by
      rw [e]; decide
    exact hinj _ (List.mem_map.2 ⟨c1, hc1, rfl⟩) _ (List.mem_map.2 ⟨c2, hc2, rfl⟩)
      (e1.symm.trans e2)
  · intro argc argv tf m s hs hs0
    exact dispatch_lookup argc argv tf m s hs hs0 (commands k fuel) hnz
  · intro c hc
    have hm : c.name ∈ (commands k fuel).map (fun c => c.name) := List.mem_map.2 ⟨c, hc, rfl⟩
    have hall : ∀ a ∈ (commands k fuel).map (fun c => c.name),
        strcmp (bytes "HELP") (bytes a) ≠ 0 ∧ strcmp (bytes "hel") (bytes a) ≠ 0 ∧
        strcmp (bytes "helpx") (bytes a) ≠ 0 := by rw [e]; decide
    exact hall _ hm
  · intro tf m
    obtain ⟨argv, hrun⟩ := runcmd_commands k fuel (bytes "HELP") [] tf m (by decide)
      (bytes "HELP") [] (by decide) (by decide)
    rw [hrun]
    rfl

/-- C17 (amended): for every frame visited by `mon_backtrace`, the emitted
frame line formats each of the five argument words with `%08x`, as exactly 8
hexadecimal digits, zero-padded, whereas the frame pointer and the return
address are formatted with `%x`, without padding: 1 to 8 hexadecimal digits,
8 of them exactly for the values from `0x10000000` on. -/
theorem frame_line_format (k : Kernel) (fuel ebp : Nat) (info : Eipdebuginfo) (m : Machine)
    (h : ebp ≠ 0) :
    (∃ (info1 : Eipdebuginfo) (line : String),
      backtraceLoop k (fuel + 1) ebp info m = backtraceLoop k fuel (load32 m ebp) info1
        { m with out := (m.out ++
          [ "ebp " ++ fmt_x ebp ++ " eip " ++ fmt_x (load32 m ((ebp + 4) % 2 ^ 32)) ++ " args",
            " " ++ fmt_08x (load32 m ((ebp + 8) % 2 ^ 32)) ++ " ",
            " " ++ fmt_08x (load32 m ((ebp + 12) % 2 ^ 32)) ++ " ",
            " " ++ fmt_08x (load32 m ((ebp + 16) % 2 ^ 32)) ++ " ",
            " " ++ fmt_08x (load32 m ((ebp + 20) % 2 ^ 32)) ++ " ",
            " " ++ fmt_08x (load32 m ((ebp + 24) % 2 ^ 32)) ++ " ",
            "\n", line ]) }) ∧
    (∀ v : Nat, (fmt_08x v).length = 8 ∧
      ∀ c ∈ (fmt_08x v).toList, c ∈ "0123456789abcdef".toList) ∧
    (∀ v : Nat, 1 ≤ (fmt_x v).length ∧ (fmt_x v).length ≤ 8 ∧
      ((fmt_x v).length = 8 ↔ 0x10000000 ≤ v % 2 ^ 32)) := by
  refine ⟨⟨(k.debuginfo_eip (load32 m ((ebp + 4) % 2 ^ 32)) info).2,
    infoLine (load32 m ((ebp + 4) % 2 ^ 32))
      (k.debuginfo_eip (load32 m ((ebp + 4) % 2 ^ 32)) info).2, ?_⟩,
    fmt_08x_length, fmt_x_length⟩
  rw [backtraceLoop_step k fuel ebp info m h, frameLine_explicit]
  rfl

/-- Witness of C17 (amended): the frame at `0x100`. -/
theorem frame_line_format_witness :
    (0x100 : Nat) ≠ 0 ∧
    ((∃ (info1 : Eipdebuginfo) (line : String),
      backtraceLoop sampleKernel (7 + 1) 0x100 sampleMachine.info sampleMachine
        = backtraceLoop sampleKernel 7 (load32 sampleMachine 0x100) info1
          { sampleMachine with out := (sampleMachine.out ++
            [ "ebp " ++ fmt_x 0x100 ++ " eip " ++
                fmt_x (load32 sampleMachine ((0x100 + 4) % 2 ^ 32)) ++ " args",
              " " ++ fmt_08x (load32 sampleMachine ((0x100 + 8) % 2 ^ 32)) ++ " ",
              " " ++ fmt_08x (load32 sampleMachine ((0x100 + 12) % 2 ^ 32)) ++ " ",
              " " ++ fmt_08x (load32 sampleMachine ((0x100 + 16) % 2 ^ 32)) ++ " ",
              " " ++ fmt_08x (load32 sampleMachine ((0x100 + 20) % 2 ^ 32)) ++ " ",
              " " ++ fmt_08x (load32 sampleMachine ((0x100 + 24) % 2 ^ 32)) ++ " ",
              "\n", line ]) }) ∧
    (∀ v : Nat, (fmt_08x v).length = 8 ∧
      ∀ c ∈ (fmt_08x v).toList, c ∈ "0123456789abcdef".toList) ∧
    (∀ v : Nat, 1 ≤ (fmt_x v).length ∧ (fmt_x v).length ≤ 8 ∧
      ((fmt_x v).length = 8 ↔ 0x10000000 ≤ v % 2 ^ 32))) :=
  ⟨by decide, frame_line_format sampleKernel 7 0x100 sampleMachine.info sampleMachine
    (by decide)⟩

/-- Counterexample to C17 as stated: for the frame at `0x100`, a value below
`0x10000000`, `mon_backtrace` writes the frame pointer as "100", three digits
and not eight. -/
theorem frame_line_format_counterexample :
    (match mon_backtrace sampleKernel 8 1 ⟨[], []⟩ none sampleMachine with
      | Except.ok o => o.m.out[1]?
      | Except.error _ => none) = some "ebp 100 eip f0100abc args" ∧
    fmt_x 0x100 = "100" ∧ (fmt_x 0x100).length ≠ 8 := by
  decide

/-- C18: on every NUL-terminated buffer the tokenizer of `runcmd` ends without
a fault: no write to `argv` falls outside its 16 slots and the step budget of
the buffer length (the cursor advances on every iteration) is enough; the
final count satisfies `argc ≤ MAXARGS - 1 = 15 < 16`.  The same holds from
every state of the loop: started with `argc ≤ 15` anywhere in the line, the
loop ends within as many iterations as characters remain, with
`argc ≤ 15` still. -/
theorem tokenize_in_bounds (line tail : List Nat) (h0 : ∀ c ∈ line, c ≠ 0) :
    (∃ r, tokenize (line ++ 0 :: tail) = Except.ok r ∧ r.argc ≤ MAXARGS - 1 ∧
      r.argv.length = MAXARGS ∧ r.argc < r.argv.length) ∧
    tokenize (line ++ 0 :: tail) ≠ Except.error Fault.argvBounds ∧
    tokenize (line ++ 0 :: tail) ≠ Except.error Fault.fuel ∧
    (∀ (pre rest : List Nat) (argv : List Ptr) (argc : Nat),
      (∀ c ∈ rest, c ≠ 0) → argv.length = MAXARGS → argc ≤ MAXARGS - 1 →
      ∃ r, parseLoop (rest.length + 1) (pre ++ (rest ++ 0 :: tail)) pre.length argv argc
          = Except.ok r ∧
        argc ≤ r.argc ∧ r.argc ≤ MAXARGS - 1 ∧ r.argv.length = MAXARGS) := by
  obtain ⟨r, hr, -, hac, hal, -, -⟩ := tokenize_spec line tail h0
  have hle : r.argc ≤ 15 := by rw [hac]; omega
  refine ⟨⟨r, hr, hle, hal, by rw [hal]; omega⟩, by rw [hr]; simp, by rw [hr]; simp, ?_⟩
  intro pre rest argv argc hrest hlen hargc
  have hargc' : argc ≤ 15 := hargc
  obtain ⟨r1, hr1, -, hac1, hal1, -, -, -, -⟩ :=
    parseLoop_spec tail (rest.length + 1) rest pre argv argc (by omega) hrest hlen hargc'
  refine ⟨r1, hr1, ?_, ?_, hal1⟩
  · rw [hac1]; omega
  · rw [hac1]; show _ ≤ 15; omega

/-- Witness of C18: the line "a b c d e f g h i j k l m n o p q" of seventeen
words. -/
theorem tokenize_in_bounds_witness :
    (∀ c ∈ bytes "a b c d e f g h i j k l m n o p q", c ≠ 0) ∧
    ((∃ r, tokenize (bytes "a b c d e f g h i j k l m n o p q" ++ 0 :: []) = Except.ok r ∧
      r.argc ≤ MAXARGS - 1 ∧ r.argv.length = MAXARGS ∧ r.argc < r.argv.length) ∧
    tokenize (bytes "a b c d e f g h i j k l m n o p q" ++ 0 :: [])
      ≠ Except.error Fault.argvBounds ∧
    tokenize (bytes "a b c d e f g h i j k l m n o p q" ++ 0 :: []) ≠ Except.error Fault.fuel ∧
    (∀ (pre rest : List Nat) (argv : List Ptr) (argc : Nat),
      (∀ c ∈ rest, c ≠ 0) → argv.length = MAXARGS → argc ≤ MAXARGS - 1 →
      ∃ r, parseLoop (rest.length + 1) (pre ++ (rest ++ 0 :: [])) pre.length argv argc
          = Except.ok r ∧
        argc ≤ r.argc ∧ r.argc ≤ MAXARGS - 1 ∧ r.argv.length = MAXARGS)) :=
  ⟨by decide, tokenize_in_bounds (bytes "a b c d e f g h i j k l m n o p q") [] (by decide)⟩

/-- C19: on a NUL-terminated line of 16 or more words `runcmd` calls no
handler, whatever the table holds, also when the first word is a registered
name such as "si": it returns 0 with the trap frame as given, the trap flag
not set, and nothing but the overflow message written; the console loop then
goes on with the next line. -/
theorem runcmd_sixteen_words (cmds : List Command) (line tail : List Nat)
    (tf : Option Trapframe) (m : Machine) (rest : List (Option (List Nat))) (n : Nat)
    (h0 : ∀ c ∈ line, c ≠ 0) (hn : MAXARGS ≤ (wordsOf line).length) :
    runcmd cmds (line ++ 0 :: tail) tf m
      = Except.ok ⟨0, tf, { m with out := m.out ++ ["Too many arguments (max 16)\n"] }⟩ ∧
    monitorLoop cmds (some (line ++ 0 :: tail) :: rest) n tf m
      = monitorLoop cmds rest (n + 1) tf
          { m with out := m.out ++ ["K> "] ++ ["Too many arguments (max 16)\n"] } := by
  have hn' : 15 < (wordsOf line).length := by
    have : 16 ≤ (wordsOf line).length := hn
    omega
  refine ⟨runcmd_overflow cmds line tail tf m h0 hn', ?_⟩
  rw [monitorLoop, runcmd_overflow cmds line tail tf (cprintf "K> " m) h0 hn']
  rfl

/-- Witness of C19: the line "si 1 2 ... 15" with a trap frame present. -/
theorem runcmd_sixteen_words_witness :
    (∀ c ∈ bytes "si 1 2 3 4 5 6 7 8 9 10 11 12 13 14 15", c ≠ 0) ∧
    MAXARGS ≤ (wordsOf (bytes "si 1 2 3 4 5 6 7 8 9 10 11 12 13 14 15")).length ∧
    (runcmd (commands sampleKernel 8)
        (bytes "si 1 2 3 4 5 6 7 8 9 10 11 12 13 14 15" ++ 0 :: []) (some sampleFrame)
        sampleMachine
      = Except.ok ⟨0, some sampleFrame,
          { sampleMachine with out := sampleMachine.out ++ ["Too many arguments (max 16)\n"] }⟩ ∧
    monitorLoop (commands sampleKernel 8)
        (some (bytes "si 1 2 3 4 5 6 7 8 9 10 11 12 13 14 15" ++ 0 :: []) :: []) 0
        (some sampleFrame) sampleMachine
      = monitorLoop (commands sampleKernel 8) [] (0 + 1) (some sampleFrame)
          { sampleMachine with
            out := sampleMachine.out ++ ["K> "] ++ ["Too many arguments (max 16)\n"] }) :=
  ⟨by decide, by decide,
    runcmd_sixteen_words (commands sampleKernel 8)
      (bytes "si 1 2 3 4 5 6 7 8 9 10 11 12 13 14 15") [] (some sampleFrame) sampleMachine [] 0
      (by decide) (by decide)⟩

/-- C20: with the table `commands` and a terminating frame-pointer chain (and
a step budget that covers it), `runcmd` returns on every NUL-terminated line,
and its status is negative exactly when the trap frame is present, the line
has at most 15 words and its first word is "si"; the status is then -1 and
the frame comes back with the trap flag set; in every other case the status
is 0. -/
theorem runcmd_status (k : Kernel) (fuel : Nat) (line tail : List Nat)
    (tf : Option Trapframe) (m : Machine) (frames : List Nat) (h0 : ∀ c ∈ line, c ≠ 0)
    (hchain : IsChain m (read_ebp m) frames) (hfuel : frames.length ≤ fuel) :
    ∃ o, runcmd (commands k fuel) (line ++ 0 :: tail) tf m = Except.ok o ∧
      (o.status < 0 ↔ (tf.isSome = true ∧ (wordsOf line).length ≤ 15 ∧
        (wordsOf line).head? = some (bytes "si"))) ∧
      (o.status < 0 → o.status = -1 ∧
        ∃ t, tf = some t ∧ o.tf = some { t with tf_eflags := t.tf_eflags ||| FL_TF } ∧
          (t.tf_eflags ||| FL_TF).testBit 8 = true) ∧
      (¬ o.status < 0 → o.status = 0) := by
  obtain ⟨o, ho⟩ := runcmd_returns k fuel line tail tf m h0
    (Or.inr (Or.inr (mon_backtrace_returns k fuel tf m frames hchain hfuel)))
  refine ⟨o, ho, ?_⟩
  rcases runcmd_outcome k fuel line tail tf m h0 o ho with
    ⟨hs, -, hnot⟩ | ⟨hs, hlen, hsi, -, t, ht, hot⟩
  · refine ⟨⟨fun h => by omega, fun h => absurd h hnot⟩, fun h => by omega, fun _ => hs⟩
  · have h8 : FL_TF.testBit 8 = true := by decide
    refine ⟨⟨fun _ => ⟨by rw [ht]; rfl, hlen, hsi⟩, fun _ => by omega⟩, ?_, fun h => by omega⟩
    intro _
    exact ⟨hs, t, ht, hot, by simp only [Nat.testBit_or, h8, Bool.or_true]⟩

/-- Witness of C20: the line "si" with a trap frame present, over the chain
of the two frames `0x100` and `0x200`. -/
theorem runcmd_status_witness :
    (∀ c ∈ bytes "si", c ≠ 0) ∧
    IsChain sampleMachine (read_ebp sampleMachine) [0x100, 0x200] ∧
    [0x100, 0x200].length ≤ 8 ∧
    ∃ o, runcmd (commands sampleKernel 8) (bytes "si" ++ 0 :: []) (some sampleFrame)
        sampleMachine = Except.ok o ∧
      (o.status < 0 ↔ ((some sampleFrame).isSome = true ∧ (wordsOf (bytes "si")).length ≤ 15 ∧
        (wordsOf (bytes "si")).head? = some (bytes "si"))) ∧
      (o.status < 0 → o.status = -1 ∧
        ∃ t, some sampleFrame = some t ∧
          o.tf = some { t with tf_eflags := t.tf_eflags ||| FL_TF } ∧
          (t.tf_eflags ||| FL_TF).testBit 8 = true) ∧
      (¬ o.status < 0 → o.status = 0) :=
  ⟨by decide, ⟨rfl, by decide, by decide, rfl, by decide, by decide, rfl⟩, by decide,
    runcmd_status sampleKernel 8 (bytes "si") [] (some sampleFrame) sampleMachine [0x100, 0x200]
      (by decide) ⟨rfl, by decide, by decide, rfl, by decide, by decide, rfl⟩ (by decide)⟩

end Monitor
